import Mathlib

/-!
# Verification of the Sample-Data-Generator tools

Shallow embedding of `src/Sample-Data-Generator/main.py`: the three agent
tools `generate_sample_data`, `write_json` and `read_json`, together with the
interactive conversation loop of the `__main__` block.

Modelling conventions:

* Python values are modelled by `PyVal` (strings, ints, booleans, `None`,
  lists, dicts).  Floats are outside the model (floating point is not
  representable faithfully here); all claims under verification concern
  string/int/bool/null scalars only.
* A Python `dict` is modelled as its ordered association list of key/value
  pairs (CPython dicts preserve insertion order and never hold duplicate
  keys, so theorems about genuine dict inputs carry `Nodup` hypotheses).
* Raising an exception is modelled by `Except.error`; an ordinary return is
  `Except.ok`.  Where the source catches every exception and returns a
  string, the model returns the string directly.
* The file system is a map from paths to `FileState`, plus a map telling for
  each path whether opening it for writing fails (and with which message).
  This models `FileNotFoundError`, OSError-style read failures, and write
  failures such as permission errors.
* `json.dump`/`json.dumps` are embedded by `jdumpV` (parameterised by
  `ensure_ascii` and the `indent` option, covering the three call sites of
  the source: `(ensure_ascii := False, indent := 2)` for the file write,
  defaults `(True, None)` for the size report, and `(True, indent := 2)`
  in `read_json`).  `json.load`/`json.loads` are embedded by the fuelled
  recursive-descent parser `parseVal`/`loads`.  The parser follows CPython's
  `json` scanner: whitespace handling, string escapes including `\uXXXX`
  and surrogate pairs, strict rejection of raw control characters in
  strings, `0|[1-9][0-9]*` integer grammar, and last-wins duplicate-key
  handling for objects.  Two deliberate deviations, both outside the
  claims: JSON floats (and `NaN`/`Infinity`) are not modelled, and `\u`
  escapes denoting lone surrogates are rejected (a Lean `Char` cannot hold
  a lone surrogate, while CPython would produce a non-Unicode string).
  CPython's `JSONDecodeError` messages carry position information; the
  model keeps only the leading phrase (`"Expecting value"` / `"Extra
  data"`).
-/

/-- A Python value, as handled by the tools of the program.  Floats are not
modelled (none of the verified claims involves them). -/
inductive PyVal where
  | pstr (s : String)
  | pint (n : Int)
  | pbool (b : Bool)
  | pnone
  | plist (xs : List PyVal)
  | pdict (kvs : List (PyVal × PyVal))

/-- `isinstance(k, str)`. -/
def PyVal.isStr : PyVal → Bool
  | .pstr _ => true
  | _ => false

/-- `isinstance(v, list)`. -/
def PyVal.isList : PyVal → Bool
  | .plist _ => true
  | _ => false

/-- Python truthiness, as used by `all(v for v in data_fields.values())`. -/
def pyTruthy : PyVal → Bool
  | .pnone => false
  | .pbool b => b
  | .pint n => n != 0
  | .pstr s => !s.isEmpty
  | .plist xs => !xs.isEmpty
  | .pdict kvs => !kvs.isEmpty

/-- `len(v)` for a list value (only applied to lists in the program). -/
def listLen : PyVal → Nat
  | .plist xs => xs.length
  | _ => 0

/-- `v[i]` for a list value; in the program this is only evaluated with
`i < len(v)`, so the `.pnone` default is never reached. -/
def pyIndex : PyVal → Nat → PyVal
  | .plist xs, i => xs.getD i .pnone
  | _, _ => .pnone

/-- The return value of `generate_sample_data`: either `{"data": [...]}`
or `{"error": msg}`. -/
inductive GenResult where
  | data (records : List PyVal)
  | error (msg : String)

/-- `generate_sample_data` (main.py lines 38-50).  `Except.error` models an
exception escaping the function (there is no try/except around its body). -/
def generate_sample_data (data_fields : List (PyVal × PyVal)) :
    Except String GenResult :=
  if !(data_fields.all fun kv => kv.1.isStr && kv.2.isList) then
    .ok (.error ("Invalid input format. data_fields must be a dictionary of string keys and list values."))
  else if !(data_fields.all fun kv => pyTruthy kv.2) then
    .ok (.error ("All lists in data_fields must be non-empty."))
  else
    match data_fields.map (fun kv => listLen kv.2) with
    | [] => .error ("ValueError: min() arg is an empty sequence")
    | L :: Ls =>
      let num_records := Ls.foldl Nat.min L
      .ok (.data ((List.range num_records).map (fun i =>
        .pdict (data_fields.map (fun kv => (kv.1, pyIndex kv.2 i))))))

/-! ## JSON serialization (`json.dump` / `json.dumps`) -/

/-- `n` spaces. -/
def sp (n : Nat) : List Char := List.replicate n ' '

/-- The whitespace emitted after an opening bracket / before a closing
bracket at nesting level `lvl`: nothing in compact mode, newline plus
indentation when an `indent` width is given. -/
def openWs : Option Nat → Nat → List Char
  | none, _ => []
  | some i, lvl => '\n' :: sp (i * lvl)

/-- The item separator at nesting level `lvl`: `", "` in compact mode
(CPython's default separators), `","` plus newline and indentation when an
`indent` width is given. -/
def sepWs : Option Nat → Nat → List Char
  | none, _ => [',', ' ']
  | some i, lvl => ',' :: '\n' :: sp (i * lvl)

/-- Lower-case hexadecimal digit, `n < 16`. -/
def hexDigitChar (n : Nat) : Char :=
  if n < 10 then Char.ofNat (48 + n) else Char.ofNat (87 + n)

/-- `\uXXXX` escape for a code unit `n < 0x10000`. -/
def uEsc (n : Nat) : List Char :=
  ['\\', 'u', hexDigitChar (n / 4096 % 16), hexDigitChar (n / 256 % 16),
   hexDigitChar (n / 16 % 16), hexDigitChar (n % 16)]

/-- CPython's JSON string-character encoder (`ESCAPE_DCT` /
`py_encode_basestring_ascii`): `ea` is `ensure_ascii`. -/
def escChar (ea : Bool) (c : Char) : List Char :=
  if c = '"' then ['\\', '"']
  else if c = '\\' then ['\\', '\\']
  else if c.toNat = 8 then ['\\', 'b']
  else if c.toNat = 9 then ['\\', 't']
  else if c.toNat = 10 then ['\\', 'n']
  else if c.toNat = 12 then ['\\', 'f']
  else if c.toNat = 13 then ['\\', 'r']
  else if c.toNat < 32 then uEsc c.toNat
  else if ea && 126 < c.toNat then
    if c.toNat < 65536 then uEsc c.toNat
    else uEsc (55296 + (c.toNat - 65536) / 1024) ++ uEsc (56320 + (c.toNat - 65536) % 1024)
  else [c]

/-- Escape a whole string, character by character. -/
def escList (ea : Bool) : List Char → List Char
  | [] => []
  | c :: cs => escChar ea c ++ escList ea cs

/-- A serialized JSON string literal. -/
def dumpStr (ea : Bool) (s : String) : List Char :=
  '"' :: escList ea s.data ++ ['"']

/-- Little-endian decimal digits of `n` (empty for `0`); the first argument
is fuel, instantiated with `n` itself, which is enough since `n` has at most
`n` digits. -/
def natDigitsAux : Nat → Nat → List Nat
  | 0, _ => []
  | fuel + 1, n => if n = 0 then [] else n % 10 :: natDigitsAux fuel (n / 10)

/-- Decimal digit character. -/
def digitChar (d : Nat) : Char := Char.ofNat (48 + d)

/-- Decimal representation of a natural number, as Python's `repr`. -/
def natRepr (n : Nat) : List Char :=
  if n = 0 then ['0'] else ((natDigitsAux n n).reverse.map digitChar)

/-- Decimal representation of a Python int. -/
def intRepr (n : Int) : List Char :=
  if n < 0 then '-' :: natRepr n.natAbs else natRepr n.toNat

/-- Serialization of a dict key: CPython coerces `str`, `int`, `bool` and
`None` keys to strings and raises `TypeError` on container keys. -/
def keyChars (ea : Bool) : PyVal → Except String (List Char)
  | .pstr s => .ok (dumpStr ea s)
  | .pint n => .ok ('"' :: intRepr n ++ ['"'])
  | .pbool b => .ok ('"' :: (if b then ['t', 'r', 'u', 'e'] else ['f', 'a', 'l', 's', 'e']) ++ ['"'])
  | .pnone => .ok ['"', 'n', 'u', 'l', 'l', '"']
  | .plist _ => .error ("keys must be str, int, float, bool or None, not list")
  | .pdict _ => .error ("keys must be str, int, float, bool or None, not dict")

mutual
/-- `json.dumps(v, ensure_ascii := ea, indent := ind)` at nesting level
`lvl`, as a character list; `Except.error` models the `TypeError` raised on
non-coercible dict keys. -/
def jdumpV (ea : Bool) (ind : Option Nat) (lvl : Nat) : PyVal → Except String (List Char)
  | .pnone => .ok ['n', 'u', 'l', 'l']
  | .pbool b => .ok (if b then ['t', 'r', 'u', 'e'] else ['f', 'a', 'l', 's', 'e'])
  | .pint n => .ok (intRepr n)
  | .pstr s => .ok (dumpStr ea s)
  | .plist [] => .ok ['[', ']']
  | .plist (x :: xs) => do
    let s0 ← jdumpV ea ind (lvl + 1) x
    let rest ← jdumpItems ea ind (lvl + 1) xs
    .ok ('[' :: openWs ind (lvl + 1) ++ s0 ++ rest ++ openWs ind lvl ++ [']'])
  | .pdict [] => .ok ['{', '}']
  | .pdict ((k, v) :: kvs) => do
    let k0 ← keyChars ea k
    let v0 ← jdumpV ea ind (lvl + 1) v
    let rest ← jdumpPairs ea ind (lvl + 1) kvs
    .ok ('{' :: openWs ind (lvl + 1) ++ k0 ++ ':' :: ' ' :: v0 ++ rest ++ openWs ind lvl ++ ['}'])

/-- Trailing elements of a serialized JSON array (each preceded by the item
separator). -/
def jdumpItems (ea : Bool) (ind : Option Nat) (lvl : Nat) : List PyVal → Except String (List Char)
  | [] => .ok []
  | x :: xs => do
    let s ← jdumpV ea ind lvl x
    let rest ← jdumpItems ea ind lvl xs
    .ok (sepWs ind lvl ++ s ++ rest)

/-- Trailing members of a serialized JSON object. -/
def jdumpPairs (ea : Bool) (ind : Option Nat) (lvl : Nat) : List (PyVal × PyVal) → Except String (List Char)
  | [] => .ok []
  | (k, v) :: kvs => do
    let k0 ← keyChars ea k
    let v0 ← jdumpV ea ind lvl v
    let rest ← jdumpPairs ea ind lvl kvs
    .ok (sepWs ind lvl ++ k0 ++ ':' :: ' ' :: v0 ++ rest)
end

/-! ## JSON parsing (`json.load` / `json.loads`) -/

/-- JSON whitespace (CPython: `' \t\n\r'`). -/
def isWs (c : Char) : Bool := c = ' ' || c = '\t' || c = '\n' || c = '\r'

/-- Skip JSON whitespace. -/
def skipWs (l : List Char) : List Char := l.dropWhile isWs

/-- Value of one hexadecimal digit. -/
def fromHexDigit (c : Char) : Option Nat :=
  if 48 ≤ c.toNat && c.toNat ≤ 57 then some (c.toNat - 48)
  else if 97 ≤ c.toNat && c.toNat ≤ 102 then some (c.toNat - 87)
  else if 65 ≤ c.toNat && c.toNat ≤ 70 then some (c.toNat - 55)
  else none

/-- Value of a 4-digit hexadecimal escape. -/
def hex4 (a b c d : Char) : Option Nat :=
  match fromHexDigit a, fromHexDigit b, fromHexDigit c, fromHexDigit d with
  | some x, some y, some z, some w => some (((x * 16 + y) * 16 + z) * 16 + w)
  | _, _, _, _ => none

/-- Single-character backslash escapes (`BACKSLASH` table of the CPython
scanner). -/
def escMap (c : Char) : Option Char :=
  if c = '"' then some '"'
  else if c = '\\' then some '\\'
  else if c = '/' then some '/'
  else if c = 'b' then some (Char.ofNat 8)
  else if c = 'f' then some (Char.ofNat 12)
  else if c = 'n' then some '\n'
  else if c = 'r' then some (Char.ofNat 13)
  else if c = 't' then some '\t'
  else none

/-- Body of a JSON string literal, after the opening quote: returns the
decoded characters and the input remaining after the closing quote.  Strict
mode: raw control characters are rejected.  `\uXXXX` escapes are decoded,
with surrogate pairs combined; escapes denoting lone surrogates are rejected
(see the module comment). -/
def parseStringBody : Nat → List Char → Option (List Char × List Char)
  | 0, _ => none
  | _ + 1, [] => none
  | fuel + 1, c :: rest =>
    if c = '"' then some ([], rest)
    else if c = '\\' then
      match rest with
      | [] => none
      | e :: rest2 =>
        if e = 'u' then
          match rest2 with
          | a :: b :: cc :: d :: rest3 =>
            match hex4 a b cc d with
            | none => none
            | some n =>
              if n < 55296 || 57344 ≤ n then
                (parseStringBody fuel rest3).map (fun p => (Char.ofNat n :: p.1, p.2))
              else if n < 56320 then
                match rest3 with
                | s1 :: s2 :: e1 :: f1 :: g1 :: h1 :: rest4 =>
                  if s1 = '\\' && s2 = 'u' then
                    match hex4 e1 f1 g1 h1 with
                    | none => none
                    | some m =>
                      if 56320 ≤ m && m < 57344 then
                        (parseStringBody fuel rest4).map (fun p =>
                          (Char.ofNat (65536 + (n - 55296) * 1024 + (m - 56320)) :: p.1, p.2))
                      else none
                  else none
                | _ => none
              else none
          | _ => none
        else
          match escMap e with
          | some c2 => (parseStringBody fuel rest2).map (fun p => (c2 :: p.1, p.2))
          | none => none
    else if c.toNat < 32 then none
    else (parseStringBody fuel rest).map (fun p => (c :: p.1, p.2))

/-- Numeric value of one decimal digit character. -/
def digitVal (c : Char) : Nat := c.toNat - 48

/-- Numeric value of a big-endian decimal digit string. -/
def natOfBE (ds : List Char) : Nat := ds.foldl (fun a c => a * 10 + digitVal c) 0

/-- After the integer part of a number, a following `.`, `e` or `E` would
make it a float, which the model does not cover (the parser fails there;
CPython would produce a `float`). -/
def numEnd : List Char → Bool
  | [] => true
  | c :: _ => !(c = '.' || c = 'e' || c = 'E')

/-- Parse a JSON number matching `-?(0|[1-9][0-9]*)` (the integer part of
CPython's `NUMBER_RE`). -/
def parseNumberAux (neg : Bool) : List Char → Option (PyVal × List Char)
  | [] => none
  | c :: r =>
    if c = '0' then
      if numEnd r then some (.pint 0, r) else none
    else if c.isDigit then
      let ds := (c :: r).takeWhile Char.isDigit
      let r2 := (c :: r).dropWhile Char.isDigit
      if numEnd r2 then
        some (.pint (if neg then -(natOfBE ds : Int) else (natOfBE ds : Int)), r2)
      else none
    else none

/-- Parse a JSON number matching the sign and integer part of CPython's
`NUMBER_RE` (see `parseNumberAux`). -/
def parseNumber : List Char → Option (PyVal × List Char)
  | [] => none
  | c :: r => if c = '-' then parseNumberAux true r else parseNumberAux false (c :: r)

/-- One insertion into a Python dict under construction: an existing key
keeps its position and gets the new value, a new key is appended. -/
def dictInsert (d : List (String × PyVal)) (k : String) (v : PyVal) :
    List (String × PyVal) :=
  if d.any (fun kv => kv.1 == k) then
    d.map (fun kv => if kv.1 == k then (kv.1, v) else kv)
  else d ++ [(k, v)]

/-- `dict(pairs)`: CPython's object hook builds a dict from the parsed
member list, so a duplicated key keeps its first position with its last
value. -/
def dictOfPairs (ps : List (String × PyVal)) : List (String × PyVal) :=
  ps.foldl (fun d kv => dictInsert d kv.1 kv.2) []

/-- Expect a `:` after an object key (whitespace allowed before it). -/
def expectColon (l : List Char) : Option (List Char) :=
  match skipWs l with
  | ':' :: r => some r
  | _ => none

/-- After an object member: a `,` means more members follow (`true`), a `}`
closes the object (`false`); anything else is a parse error. -/
def objTail (l : List Char) : Option (Bool × List Char) :=
  match skipWs l with
  | ',' :: r => some (true, r)
  | '}' :: r => some (false, r)
  | _ => none

/-- After an array element: a `,` means more elements follow (`true`), a `]`
closes the array (`false`); anything else is a parse error. -/
def arrTail (l : List Char) : Option (Bool × List Char) :=
  match skipWs l with
  | ',' :: r => some (true, r)
  | ']' :: r => some (false, r)
  | _ => none

mutual
/-- One JSON value (fuelled recursive descent, following CPython's pure
Python scanner): skips leading whitespace, then dispatches on the first
character. -/
def parseVal : Nat → List Char → Option (PyVal × List Char)
  | 0, _ => none
  | fuel + 1, l =>
    match skipWs l with
    | [] => none
    | c :: rest =>
      if c = '"' then (parseStringBody (rest.length + 1) rest).map (fun p => (.pstr (String.mk p.1), p.2))
      else if c = '{' then
        match skipWs rest with
        | '}' :: r => some (.pdict [], r)
        | l2 => (parseObjItems fuel l2).map (fun p =>
            (.pdict ((dictOfPairs p.1).map (fun kv => (PyVal.pstr kv.1, kv.2))), p.2))
      else if c = '[' then
        match skipWs rest with
        | ']' :: r => some (.plist [], r)
        | l2 => (parseArrItems fuel l2).map (fun p => (.plist p.1, p.2))
      else if c = 't' then
        match rest with
        | 'r' :: 'u' :: 'e' :: rest2 => some (.pbool true, rest2)
        | _ => none
      else if c = 'f' then
        match rest with
        | 'a' :: 'l' :: 's' :: 'e' :: rest2 => some (.pbool false, rest2)
        | _ => none
      else if c = 'n' then
        match rest with
        | 'u' :: 'l' :: 'l' :: rest2 => some (.pnone, rest2)
        | _ => none
      else parseNumber (c :: rest)

/-- The elements of a non-empty JSON array, up to and including the closing
bracket. -/
def parseArrItems : Nat → List Char → Option (List PyVal × List Char)
  | 0, _ => none
  | fuel + 1, l =>
    (parseVal fuel l).bind (fun vr =>
      (arrTail vr.2).bind (fun br =>
        if br.1 then (parseArrItems fuel br.2).map (fun p => (vr.1 :: p.1, p.2))
        else some ([vr.1], br.2)))

/-- The members of a non-empty JSON object, up to and including the closing
brace. -/
def parseObjItems : Nat → List Char → Option (List (String × PyVal) × List Char)
  | 0, _ => none
  | fuel + 1, l =>
    match skipWs l with
    | '"' :: rest =>
      (parseStringBody (rest.length + 1) rest).bind (fun kr =>
        (expectColon kr.2).bind (fun r2 =>
          (parseVal fuel r2).bind (fun vr =>
            (objTail vr.2).bind (fun br =>
              if br.1 then
                (parseObjItems fuel br.2).map
                  (fun p => ((String.mk kr.1, vr.1) :: p.1, p.2))
              else some ([(String.mk kr.1, vr.1)], br.2)))))
    | _ => none
end

/-- `json.loads`: parse one value, then require only whitespace to remain.
The fuel `length + 1` is sufficient because every unit of fuel spent
consumes at least one input character (proved where needed for serializer
output). -/
def loads (s : String) : Except String PyVal :=
  match parseVal (s.data.length + 1) s.data with
  | none => .error ("Expecting value")
  | some (v, rest) => if skipWs rest = [] then .ok v else .error ("Extra data")

/-! ## File system model and the two file tools -/

/-- What opening a path for reading yields. -/
inductive FileState where
  | absent
  | unreadable (emsg : String)
  | content (text : String)

/-- File system: contents per path, and for each path whether opening it
for writing fails (`some` carries the `str(e)` of the `OSError`). -/
structure FS where
  files : String → FileState
  writeErr : String → Option String

/-- Overwrite one file. -/
def FS.setFile (fs : FS) (p text : String) : FS :=
  ⟨fun q => if q = p then .content text else fs.files q, fs.writeErr⟩

/-- The success message of `write_json` (main.py line 70). -/
def successMsg (filepath : String) (count : Nat) : String :=
  "Successfully wrote JSON data to '" ++ filepath ++ "' (" ++ toString count ++ " characters)."

/-- `write_json` (main.py lines 53-73): dump with `indent=2,
ensure_ascii=False` into the file, then report the length of a second,
default-options serialization.  Every exception is caught and returned as an
error string.  Returns the updated file system and the returned message. -/
def write_json (data : List PyVal) (filepath : String) (fs : FS) : FS × String :=
  match fs.writeErr filepath with
  | some e => (fs, "Error writing JSON: " ++ e)
  | none =>
    match jdumpV false (some 2) 0 (.plist data) with
    | .error e => (fs.setFile filepath "", "Error writing JSON: " ++ e)
    | .ok text =>
      match jdumpV true none 0 (.plist data) with
      | .error e => (fs.setFile filepath (String.mk text), "Error writing JSON: " ++ e)
      | .ok compact => (fs.setFile filepath (String.mk text), successMsg filepath compact.length)

/-- `read_json` (main.py lines 76-100): load the file, parse it, and return
the re-serialization with `indent=2` (defaults otherwise); three except
clauses map the three failure kinds to error strings. -/
def read_json (fs : FS) (filepath : String) : String :=
  match fs.files filepath with
  | .absent => "Error: File '" ++ filepath ++ "' not found."
  | .unreadable e => "Error reading JSON: " ++ e
  | .content text =>
    match loads text with
    | .error m => "Error: Invalid JSON in file: " ++ m
    | .ok v =>
      match jdumpV true (some 2) 0 v with
      | .ok out => String.mk out
      | .error e => "Error reading JSON: " ++ e

/-! ## The conversation loop (`__main__`, main.py lines 160-176) -/

/-- Python `str.strip()` whitespace (ASCII part; the claims only involve
ASCII input). -/
def pyWs (c : Char) : Bool :=
  c = ' ' || c = '\t' || c = '\n' || c = '\r' || c.toNat = 11 || c.toNat = 12

/-- `input(...).strip()`. -/
def pyStrip (s : String) : String :=
  String.mk (((s.data.dropWhile pyWs).reverse.dropWhile pyWs).reverse)

/-- `str.lower()` (ASCII part). -/
def pyLower (s : String) : String := String.mk (s.data.map Char.toLower)

/-- The sentinel list of main.py line 165. -/
def exitSentinels : List String := ["quit", "exit", "q", ""]

/-- Outcome of running the conversation loop on a list of input lines:
which (stripped) inputs were forwarded to the agent, and the farewell
message if an exit command ended the loop (`none` models running out of
input, where `input()` would raise `EOFError`). -/
structure LoopResult where
  forwarded : List String
  farewell : Option String

/-- The `while True` loop of `__main__`: strip the line; if its lowercase
form is a sentinel, print the farewell and stop; otherwise forward it to the
agent and continue. -/
def conversation_loop : List String → LoopResult
  | [] => ⟨[], none⟩
  | line :: rest =>
    let user_input := pyStrip line
    if pyLower user_input ∈ exitSentinels then ⟨[], some "Goodbye!"⟩
    else
      let r := conversation_loop rest
      ⟨user_input :: r.forwarded, r.farewell⟩

/-! ## Auxiliary definitions for the claim statements -/

/-- A JSON-safe scalar: string, int, bool or null. -/
def isScalar : PyVal → Bool
  | .pstr _ => true
  | .pint _ => true
  | .pbool _ => true
  | .pnone => true
  | .plist _ => false
  | .pdict _ => false

/-- A flat record, given by its (string) field names and scalar values. -/
def recVal (r : List (String × PyVal)) : PyVal :=
  .pdict (r.map (fun kv => (PyVal.pstr kv.1, kv.2)))

/-- The characters that can follow a serialized value inside serializer
output (separator, closing bracket, or the newline of an indent), plus end
of input.  None of them can extend a number literal. -/
def delimOk : List Char → Bool
  | [] => true
  | c :: _ => c = ',' || c = ']' || c = '}' || c = '\n'

mutual
/-- Enough parser fuel for a value (each unit of fuel spent by the parser
on serializer output corresponds to at least one consumed character). -/
def fuelNeed : PyVal → Nat
  | .pstr _ => 1
  | .pint _ => 1
  | .pbool _ => 1
  | .pnone => 1
  | .plist xs => 1 + fuelNeedL xs
  | .pdict kvs => 1 + fuelNeedP kvs

/-- Fuel for the elements of an array. -/
def fuelNeedL : List PyVal → Nat
  | [] => 0
  | x :: xs => 1 + fuelNeed x + fuelNeedL xs

/-- Fuel for the members of an object. -/
def fuelNeedP : List (PyVal × PyVal) → Nat
  | [] => 0
  | (_, v) :: kvs => 1 + fuelNeed v + fuelNeedP kvs
end

/-- A file system with no files and no write restrictions. -/
def emptyFS : FS := ⟨fun _ => .absent, fun _ => none⟩

/-- A small file system exercising the failure kinds of `read_json`:
`bad.json` holds malformed JSON (`{invalid`), `locked.json` fails to open
for reading, everything else is absent. -/
def demoFS : FS :=
  ⟨fun p =>
    if p = "bad.json" then .content ("\x7binvalid")
    else if p = "locked.json" then .unreadable ("Permission denied")
    else .absent,
   fun _ => none⟩

/-- View a FieldSet given by string field names and value lists as the
`data_fields` dict passed to `generate_sample_data`. -/
def fieldsVal (fields : List (String × List PyVal)) : List (PyVal × PyVal) :=
  fields.map (fun kv => (PyVal.pstr kv.1, PyVal.plist kv.2))

/-- `min(len(v) for v in fields.values())` (0 for an empty FieldSet, where
the program instead raises). -/
def minLen (fields : List (String × List PyVal)) : Nat :=
  match fields.map (fun p => p.2.length) with
  | [] => 0
  | L :: Ls => Ls.foldl Nat.min L

/-- Look a string key up in a record (an association list with `PyVal`
keys), as Python's `record[f]` for the dicts built by the program. -/
def recordLookup : List (PyVal × PyVal) → String → Option PyVal
  | [], _ => none
  | (PyVal.pstr s, v) :: kvs, f => if s = f then some v else recordLookup kvs f
  | _ :: kvs, f => recordLookup kvs f

/-- The record set of the spec's round-trip example. -/
def demoRecords : List (List (String × PyVal)) :=
  [[("name", .pstr "Alice"), ("age", .pint 28)],
   [("name", .pstr "Bob"), ("age", .pint 34)]]

/-- The mismatched-lengths example of claim C1: `{a: [1,2,3], b: [4,5]}`. -/
def demoFields : List (String × List PyVal) :=
  [("a", [.pint 1, .pint 2, .pint 3]),
   ("b", [.pint 4, .pint 5])]

/-! ## Helper lemmas -/

theorem foldl_min_le (Ls : List Nat) :
    ∀ L : Nat, Ls.foldl Nat.min L ≤ L ∧ ∀ x ∈ Ls, Ls.foldl Nat.min L ≤ x := by
  induction Ls with
  | nil => exact fun L => ⟨Nat.le_refl L, by simp⟩
  | cons a Ls ih =>
    intro L
    refine ⟨Nat.le_trans (ih (Nat.min L a)).1 (Nat.min_le_left L a), ?_⟩
    intro x hx
    rcases List.mem_cons.mp hx with rfl | hx
    · exact Nat.le_trans (ih (Nat.min L x)).1 (Nat.min_le_right L x)
    · exact (ih (Nat.min L a)).2 x hx

theorem foldl_min_mem (Ls : List Nat) :
    ∀ L : Nat, Ls.foldl Nat.min L = L ∨ ∃ x ∈ Ls, Ls.foldl Nat.min L = x := by
  induction Ls with
  | nil => exact fun L => .inl rfl
  | cons a Ls ih =>
    intro L
    rcases ih (Nat.min L a) with h | ⟨x, hx, hfx⟩
    · rcases Nat.le_total L a with hla | hal
      · exact .inl (by rw [List.foldl_cons, h]; exact Nat.min_eq_left hla)
      · exact .inr ⟨a, List.mem_cons_self a Ls,
          by rw [List.foldl_cons, h]; exact Nat.min_eq_right hal⟩
    · exact .inr ⟨x, List.mem_cons_of_mem a hx, hfx⟩

theorem getElem?_eq_getD {α : Type} (vs : List α) (i : Nat) (d : α) (hi : i < vs.length) :
    vs[i]? = some (vs.getD i d) := by
  induction vs generalizing i with
  | nil => simp at hi
  | cons a l ih =>
    cases i with
    | zero => simp [List.getD]
    | succ j => simpa [List.getD] using ih j (by simpa using hi)

theorem recordLookup_fieldsVal (fields : List (String × List PyVal)) (i : Nat)
    (hkeys : (fields.map Prod.fst).Nodup) (f : String) (vs : List PyVal)
    (hmem : (f, vs) ∈ fields) :
    recordLookup (fields.map (fun p => (PyVal.pstr p.1, p.2.getD i PyVal.pnone))) f
      = some (vs.getD i PyVal.pnone) := by
  induction fields with
  | nil => simp at hmem
  | cons p fields ih =>
    obtain ⟨g, ws⟩ := p
    simp only [List.map_cons, List.nodup_cons] at hkeys
    show (if g = f then some (ws.getD i PyVal.pnone)
      else recordLookup (fields.map (fun p => (PyVal.pstr p.1, p.2.getD i PyVal.pnone))) f)
      = some (vs.getD i PyVal.pnone)
    rcases List.mem_cons.mp hmem with heq | hmem2
    · injection heq with h1 h2
      subst h2
      rw [if_pos h1.symm]
    · have hne : g ≠ f := by
        rintro rfl
        exact hkeys.1 (List.mem_map.mpr ⟨(g, vs), hmem2, rfl⟩)
      rw [if_neg hne]
      exact ih hkeys.2 hmem2

theorem pyStrip_of_all_ws (s : String) (h : s.data.all pyWs = true) : pyStrip s = "" := by
  have h1 : s.data.dropWhile pyWs = [] := by
    rw [List.dropWhile_eq_nil_iff]
    exact fun x hx => List.all_eq_true.mp h x hx
  show String.mk (((s.data.dropWhile pyWs).reverse.dropWhile pyWs).reverse) = ""
  rw [h1]
  rfl

theorem generate_sample_data_fieldsVal (g : String) (ws : List PyVal)
    (fields' : List (String × List PyVal))
    (hvals : ∀ p ∈ (g, ws) :: fields', p.2 ≠ ([] : List PyVal)) :
    generate_sample_data (fieldsVal ((g, ws) :: fields')) =
      .ok (.data ((List.range (minLen ((g, ws) :: fields'))).map (fun i =>
        PyVal.pdict (((g, ws) :: fields').map
          (fun p => (PyVal.pstr p.1, p.2.getD i PyVal.pnone)))))) := by
  have hall1 : (fieldsVal ((g, ws) :: fields')).all
      (fun kv => kv.1.isStr && kv.2.isList) = true := by
    rw [List.all_eq_true]
    rintro kv hkv
    obtain ⟨p, _, rfl⟩ := List.mem_map.mp hkv
    rfl
  have hall2 : (fieldsVal ((g, ws) :: fields')).all (fun kv => pyTruthy kv.2) = true := by
    rw [List.all_eq_true]
    rintro kv hkv
    obtain ⟨p, hp, rfl⟩ := List.mem_map.mp hkv
    have := hvals p hp
    show pyTruthy (.plist p.2) = true
    simp [pyTruthy, this]
  simp only [generate_sample_data, hall1, hall2, Bool.not_true, Bool.false_eq_true, if_false]
  simp only [fieldsVal, List.map_cons, List.map_map, minLen]
  simp only [listLen, Function.comp_def, pyIndex]

theorem minLen_le (g : String) (ws : List PyVal) (fields' : List (String × List PyVal)) :
    ∀ p ∈ (g, ws) :: fields', minLen ((g, ws) :: fields') ≤ p.2.length := by
  intro p hp
  have hshape : minLen ((g, ws) :: fields')
      = (fields'.map (fun p => p.2.length)).foldl Nat.min ws.length := by
    simp [minLen]
  rw [hshape]
  rcases List.mem_cons.mp hp with rfl | hp2
  · exact (foldl_min_le _ _).1
  · exact (foldl_min_le _ _).2 _ (List.mem_map.mpr ⟨p, hp2, rfl⟩)

theorem minLen_mem (g : String) (ws : List PyVal) (fields' : List (String × List PyVal)) :
    ∃ p ∈ (g, ws) :: fields', p.2.length = minLen ((g, ws) :: fields') := by
  have hshape : minLen ((g, ws) :: fields')
      = (fields'.map (fun p => p.2.length)).foldl Nat.min ws.length := by
    simp [minLen]
  rw [hshape]
  rcases foldl_min_mem (fields'.map (fun p => p.2.length)) ws.length with h | ⟨x, hx, hfx⟩
  · exact ⟨(g, ws), List.mem_cons_self _ _, h.symm⟩
  · obtain ⟨p, hp, rfl⟩ := List.mem_map.mp hx
    exact ⟨p, List.mem_cons_of_mem _ hp, hfx.symm⟩

/-! ## Claim theorems -/

/-- C1: on a FieldSet with string keys and non-empty list values,
`generate_sample_data` returns a `data` list of exactly `min(lengths)`
records, record `i` mapping each field name to the `i`-th element of its
value list (mismatched lengths silently truncate to the shortest list). -/
theorem generate_sample_data_truncates_to_min
    (fields : List (String × List PyVal)) (hne : fields ≠ [])
    (hvals : ∀ p ∈ fields, p.2 ≠ ([] : List PyVal))
    (hkeys : (fields.map Prod.fst).Nodup) :
    generate_sample_data (fieldsVal fields) =
      .ok (.data ((List.range (minLen fields)).map (fun i =>
        PyVal.pdict (fields.map (fun p => (PyVal.pstr p.1, p.2.getD i PyVal.pnone)))))) ∧
    ((List.range (minLen fields)).map (fun i =>
        PyVal.pdict (fields.map (fun p => (PyVal.pstr p.1, p.2.getD i PyVal.pnone))))).length
      = minLen fields ∧
    (∀ p ∈ fields, minLen fields ≤ p.2.length) ∧
    (∃ p ∈ fields, p.2.length = minLen fields) ∧
    (∀ i, i < minLen fields → ∀ f vs, (f, vs) ∈ fields →
      recordLookup (fields.map (fun p => (PyVal.pstr p.1, p.2.getD i PyVal.pnone))) f
        = vs[i]?) := by
  obtain ⟨⟨g, ws⟩, fields', rfl⟩ : ∃ p fields', fields = p :: fields' := by
    cases fields with
    | nil => exact absurd rfl hne
    | cons p fields' => exact ⟨p, fields', rfl⟩
  refine ⟨generate_sample_data_fieldsVal g ws fields' hvals, by simp,
    minLen_le g ws fields', minLen_mem g ws fields', ?_⟩
  intro i hi f vs hmem
  have hlen : i < vs.length :=
    Nat.lt_of_lt_of_le hi (minLen_le g ws fields' (f, vs) hmem)
  rw [recordLookup_fieldsVal _ i hkeys f vs hmem, getElem?_eq_getD vs i PyVal.pnone hlen]

/-- C1 witness: the mismatched-lengths FieldSet `{a: [1,2,3], b: [4,5]}`
yields exactly the two records `{a:1, b:4}` and `{a:2, b:5}`. -/
theorem generate_sample_data_truncates_to_min_witness :
    (demoFields ≠ [] ∧ (∀ p ∈ demoFields, p.2 ≠ ([] : List PyVal)) ∧
      (demoFields.map Prod.fst).Nodup) ∧
    generate_sample_data (fieldsVal demoFields) =
      .ok (.data [.pdict [(.pstr "a", .pint 1), (.pstr "b", .pint 4)],
                  .pdict [(.pstr "a", .pint 2), (.pstr "b", .pint 5)]]) := by
  refine ⟨⟨by simp [demoFields], by simp [demoFields], by simp [demoFields]⟩, ?_⟩
  have h := (generate_sample_data_truncates_to_min demoFields (by simp [demoFields])
    (by simp [demoFields]) (by simp [demoFields])).1
  exact h.trans rfl

/-- C9: on the empty FieldSet both validation checks pass vacuously and the
function raises `ValueError` from `min()` over an empty sequence. -/
theorem generate_sample_data_empty_fieldset_raises :
    generate_sample_data [] = .error ("ValueError: min() arg is an empty sequence") := rfl

/-- C3 (refuted by the code at the empty dict): `generate_sample_data`
propagates an exception on at least one input instead of returning a
value. -/
theorem generate_sample_data_can_raise :
    ∃ e, generate_sample_data [] = Except.error e := ⟨_, rfl⟩

/-- C5: with all keys strings and all values lists, an empty value list
makes `generate_sample_data` return the non-empty validation error and no
records. -/
theorem generate_sample_data_empty_list_validation
    (data_fields : List (PyVal × PyVal))
    (hok : data_fields.all (fun kv => kv.1.isStr && kv.2.isList) = true)
    (hbad : ∃ kv ∈ data_fields, kv.2 = PyVal.plist []) :
    generate_sample_data data_fields =
      .ok (.error ("All lists in data_fields must be non-empty.")) := by
  obtain ⟨kv, hmem, hkv⟩ := hbad
  have h2 : data_fields.all (fun kv => pyTruthy kv.2) = false := by
    rcases Bool.eq_false_or_eq_true (data_fields.all fun kv => pyTruthy kv.2) with h | h
    · have := List.all_eq_true.mp h kv hmem
      rw [hkv] at this
      simp [pyTruthy] at this
    · exact h
  simp [generate_sample_data, hok, h2]

/-- C5 witness: `{a: []}`. -/
theorem generate_sample_data_empty_list_validation_witness :
    ([(PyVal.pstr ("a"), PyVal.plist [])].all (fun kv => kv.1.isStr && kv.2.isList) = true) ∧
    (∃ kv ∈ [(PyVal.pstr ("a"), PyVal.plist [])], kv.2 = PyVal.plist []) ∧
    generate_sample_data [(PyVal.pstr ("a"), PyVal.plist [])] =
      .ok (.error ("All lists in data_fields must be non-empty.")) := by
  refine ⟨rfl, ⟨_, List.mem_singleton_self _, rfl⟩, ?_⟩
  exact generate_sample_data_empty_list_validation _ rfl ⟨_, List.mem_singleton_self _, rfl⟩

/-- C6: a non-string key or a non-list value makes `generate_sample_data`
return the invalid-input-format error and no records. -/
theorem generate_sample_data_invalid_format
    (data_fields : List (PyVal × PyVal))
    (hbad : ∃ kv ∈ data_fields, kv.1.isStr = false ∨ kv.2.isList = false) :
    generate_sample_data data_fields =
      .ok (.error ("Invalid input format. data_fields must be a dictionary of string keys and list values.")) := by
  have h1 : data_fields.all (fun kv => kv.1.isStr && kv.2.isList) = false := by
    obtain ⟨kv, hmem, hor⟩ := hbad
    rcases Bool.eq_false_or_eq_true (data_fields.all fun kv => kv.1.isStr && kv.2.isList)
      with h | h
    · have := List.all_eq_true.mp h kv hmem
      rcases hor with hk | hk <;> rw [hk] at this <;> simp at this
    · exact h
  simp [generate_sample_data, h1]

/-- C6 witness: `{1: [2]}` (integer key). -/
theorem generate_sample_data_invalid_format_witness :
    (∃ kv ∈ [(PyVal.pint 1, PyVal.plist [PyVal.pint 2])],
      kv.1.isStr = false ∨ kv.2.isList = false) ∧
    generate_sample_data [(PyVal.pint 1, PyVal.plist [PyVal.pint 2])] =
      .ok (.error ("Invalid input format. data_fields must be a dictionary of string keys and list values.")) := by
  refine ⟨⟨_, List.mem_singleton_self _, .inl rfl⟩, ?_⟩
  exact generate_sample_data_invalid_format _ ⟨_, List.mem_singleton_self _, .inl rfl⟩

/-- C8 counterexample: the input `EXIT` is none of the four sentinel
strings, yet the loop terminates with the farewell instead of forwarding
it. -/
theorem conversation_loop_exit_counterexample :
    conversation_loop ["EXIT"] = ⟨[], some "Goodbye!"⟩ ∧ "EXIT" ∉ exitSentinels :=
  ⟨rfl, by decide⟩

/-- C8 (amended): the loop terminates with the farewell, forwarding
nothing, exactly when the stripped, lowercased input is a sentinel (or
empty); otherwise the stripped input is forwarded and the loop continues. -/
theorem conversation_loop_sentinel_iff (line : String) (rest : List String) :
    (((conversation_loop (line :: rest)).forwarded = [] ∧
      (conversation_loop (line :: rest)).farewell = some "Goodbye!")
      ↔ pyLower (pyStrip line) ∈ exitSentinels) ∧
    (pyLower (pyStrip line) ∉ exitSentinels →
      conversation_loop (line :: rest) =
        ⟨pyStrip line :: (conversation_loop rest).forwarded,
         (conversation_loop rest).farewell⟩) := by
  by_cases h : pyLower (pyStrip line) ∈ exitSentinels
  · refine ⟨?_, fun hn => absurd h hn⟩
    simp only [conversation_loop, if_pos h]
    simpa using h
  · refine ⟨?_, fun _ => by simp only [conversation_loop, if_neg h]⟩
    simp only [conversation_loop, if_neg h]
    simpa using h

/-- C8 amended-claim witness: `hello` is not a sentinel and is forwarded. -/
theorem conversation_loop_sentinel_iff_witness :
    pyLower (pyStrip ("hello")) ∉ exitSentinels ∧
    conversation_loop ["hello"] = ⟨["hello"], none⟩ := by
  refine ⟨by decide, ?_⟩
  have h := (conversation_loop_sentinel_iff ("hello") []).2 (by decide)
  exact h.trans rfl

/-- C10: sentinel matching happens after stripping and lowercasing: a
padded upper-case `QUIT`, a mixed-case `Exit`, and any all-whitespace line
all terminate the loop with the farewell. -/
theorem conversation_loop_strip_lower_sentinels :
    (∀ rest, conversation_loop (" QUIT " :: rest) = ⟨[], some "Goodbye!"⟩) ∧
    (∀ rest, conversation_loop ("Exit" :: rest) = ⟨[], some "Goodbye!"⟩) ∧
    (∀ s rest, s.data.all pyWs = true → conversation_loop (s :: rest) = ⟨[], some "Goodbye!"⟩) := by
  refine ⟨fun rest => ?_, fun rest => ?_, fun s rest h => ?_⟩
  · simp only [conversation_loop, if_pos (by decide : pyLower (pyStrip (" QUIT ")) ∈ exitSentinels)]
  · simp only [conversation_loop, if_pos (by decide : pyLower (pyStrip ("Exit")) ∈ exitSentinels)]
  · have hs : pyStrip s = "" := pyStrip_of_all_ws s h
    simp only [conversation_loop, hs, if_pos (by decide : pyLower ("") ∈ exitSentinels)]

/-- C10 witness: a line of three spaces terminates the loop. -/
theorem conversation_loop_strip_lower_sentinels_witness :
    ("   ").data.all pyWs = true ∧ conversation_loop ["   "] = ⟨[], some "Goodbye!"⟩ :=
  ⟨by decide, conversation_loop_strip_lower_sentinels.2.2 ("   ") [] (by decide)⟩

/-- C7: every successful `write_json` stores the indented
`ensure_ascii=False` serialization in the file but reports the character
length of a second, default-options serialization; on concrete data
(`[{}]`) the reported count (4) differs from the stored file's length (8),
so the count does not track the file's size. -/
theorem write_json_reports_second_serialization :
    (∀ (data : List PyVal) (filepath : String) (fs : FS) (text compact : List Char),
      fs.writeErr filepath = none →
      jdumpV false (some 2) 0 (.plist data) = .ok text →
      jdumpV true none 0 (.plist data) = .ok compact →
      write_json data filepath fs =
        (fs.setFile filepath (String.mk text), successMsg filepath compact.length)) ∧
    (∃ (data : List PyVal) (filepath text : String) (count : Nat),
      (write_json data filepath emptyFS).2 = successMsg filepath count ∧
      (write_json data filepath emptyFS).1.files filepath = .content text ∧
      count ≠ text.length) := by
  constructor
  · intro data filepath fs text compact hw h1 h2
    simp only [write_json, hw, h1, h2]
  · refine ⟨[.pdict []], ("f.json"), String.mk ['[', '\n', ' ', ' ', '{', '}', '\n', ']'],
      4, rfl, ?_, by decide⟩
    rfl

/-- C7 witness: a concrete successful write, with both serializations made
explicit. -/
theorem write_json_reports_second_serialization_witness :
    ∃ text compact,
      emptyFS.writeErr ("out.json") = none ∧
      jdumpV false (some 2) 0 (.plist [recVal [("name", .pstr ("Alice"))]]) = .ok text ∧
      jdumpV true none 0 (.plist [recVal [("name", .pstr ("Alice"))]]) = .ok compact ∧
      write_json [recVal [("name", .pstr ("Alice"))]] ("out.json") emptyFS =
        (emptyFS.setFile ("out.json") (String.mk text), successMsg ("out.json") compact.length) := by
  refine ⟨_, _, rfl, rfl, rfl, ?_⟩
  exact write_json_reports_second_serialization.1 _ _ _ _ _ rfl rfl rfl

theorem string_data_append (s t : String) : (s ++ t).data = s.data ++ t.data := by
  cases s; cases t; rfl

theorem string_append_ne_of_getD (x y p q : String) (k : Nat)
    (hk1 : k < x.data.length) (hk2 : k < y.data.length)
    (hne : x.data.getD k ' ' ≠ y.data.getD k ' ') :
    x ++ p ≠ y ++ q := by
  intro h
  have hd := congrArg String.data h
  rw [string_data_append, string_data_append] at hd
  have hg := congrArg (fun l => l.getD k ' ') hd
  simp only at hg
  rw [List.getD_append _ _ _ _ hk1, List.getD_append _ _ _ _ hk2] at hg
  exact hne hg

/-- C4: `read_json` turns each of the three failure kinds into its own
error string instead of raising: a missing file into one naming the path, a
file with malformed JSON (such as one containing `{invalid`) into one
carrying the parser's message, and any other I/O failure into a generic
one; the three strings are pairwise distinct. -/
theorem read_json_failure_kinds :
    (∀ fs p, fs.files p = .absent →
      read_json fs p = "Error: File '" ++ p ++ "' not found.") ∧
    (∀ fs p text m, fs.files p = .content text → loads text = .error m →
      read_json fs p = "Error: Invalid JSON in file: " ++ m) ∧
    (∀ fs p e, fs.files p = .unreadable e →
      read_json fs p = "Error reading JSON: " ++ e) ∧
    loads ("\x7binvalid") = .error ("Expecting value") ∧
    (∀ p m e,
      ("Error: File '" ++ p ++ "' not found." ≠ "Error: Invalid JSON in file: " ++ m) ∧
      ("Error: File '" ++ p ++ "' not found." ≠ "Error reading JSON: " ++ e) ∧
      ("Error: Invalid JSON in file: " ++ m ≠ "Error reading JSON: " ++ e)) := by
  refine ⟨?_, ?_, ?_, rfl, ?_⟩
  · intro fs p h
    simp [read_json, h]
  · intro fs p text m h hm
    simp [read_json, h, hm]
  · intro fs p e h
    simp [read_json, h]
  · intro p m e
    refine ⟨?_, ?_, ?_⟩
    · rw [String.append_assoc]
      exact string_append_ne_of_getD _ _ _ m 7 (by decide) (by decide) (by decide)
    · rw [String.append_assoc]
      exact string_append_ne_of_getD _ _ _ e 5 (by decide) (by decide) (by decide)
    · exact string_append_ne_of_getD _ _ m e 5 (by decide) (by decide) (by decide)

/-- C4 witness: the three failure kinds on a concrete file system. -/
theorem read_json_failure_kinds_witness :
    demoFS.files ("missing.json") = .absent ∧
    read_json demoFS ("missing.json") = "Error: File 'missing.json' not found." ∧
    demoFS.files ("bad.json") = .content ("\x7binvalid") ∧
    loads ("\x7binvalid") = .error ("Expecting value") ∧
    read_json demoFS ("bad.json") = "Error: Invalid JSON in file: Expecting value" ∧
    demoFS.files ("locked.json") = .unreadable ("Permission denied") ∧
    read_json demoFS ("locked.json") = "Error reading JSON: Permission denied" := by
  refine ⟨rfl, ?_, rfl, rfl, ?_, rfl, ?_⟩
  · exact (read_json_failure_kinds.1 demoFS ("missing.json") rfl).trans (by decide)
  · exact (read_json_failure_kinds.2.1 demoFS ("bad.json") ("\x7binvalid")
      ("Expecting value") rfl rfl).trans (by decide)
  · exact (read_json_failure_kinds.2.2.1 demoFS ("locked.json")
      ("Permission denied") rfl).trans (by decide)

/-! ## Round-trip lemmas: whitespace and delimiters -/

theorem skipWs_cons_not_ws (c : Char) (l : List Char) (h : isWs c = false) :
    skipWs (c :: l) = c :: l := by
  simp [skipWs, List.dropWhile_cons, h]

theorem skipWs_append_of_ws (xs l : List Char) (h : ∀ c ∈ xs, isWs c = true) :
    skipWs (xs ++ l) = skipWs l := by
  induction xs with
  | nil => rfl
  | cons a xs ih =>
    have ha := h a (List.mem_cons_self a xs)
    simp only [List.cons_append, skipWs, List.dropWhile_cons, ha]
    exact ih (fun c hc => h c (List.mem_cons_of_mem a hc))

theorem openWs_all_ws (ind : Option Nat) (lvl : Nat) :
    ∀ c ∈ openWs ind lvl, isWs c = true := by
  intro c hc
  cases ind with
  | none => simp [openWs] at hc
  | some i =>
    simp only [openWs, List.mem_cons] at hc
    rcases hc with rfl | hc
    · rfl
    · rw [List.eq_of_mem_replicate hc]
      rfl

theorem sepWs_shape (ind : Option Nat) (lvl : Nat) :
    ∃ ws, sepWs ind lvl = ',' :: ws ∧ ∀ c ∈ ws, isWs c = true := by
  cases ind with
  | none =>
    refine ⟨[' '], rfl, ?_⟩
    intro c hc
    rw [List.mem_singleton.mp hc]
    rfl
  | some i =>
    refine ⟨'\n' :: sp (i * lvl), rfl, ?_⟩
    intro c hc
    rcases List.mem_cons.mp hc with rfl | hc
    · rfl
    · rw [List.eq_of_mem_replicate hc]
      rfl

theorem delimOk_head (c : Char) (t : List Char) (h : delimOk (c :: t) = true) :
    c.isDigit = false ∧ numEnd (c :: t) = true ∧
      (c = ',' ∨ c = ']' ∨ c = '}' ∨ c = '\n') := by
  have hc : c = ',' ∨ c = ']' ∨ c = '}' ∨ c = '\n' := by
    have hc0 := h
    simp only [delimOk, Bool.or_eq_true, decide_eq_true_eq] at hc0
    tauto
  rcases hc with rfl | rfl | rfl | rfl <;> exact ⟨rfl, rfl, by simp⟩

theorem takeWhile_dropWhile_append (p : Char → Bool) (xs ys : List Char)
    (hxs : ∀ c ∈ xs, p c = true) (hys : ∀ c t, ys = c :: t → p c = false) :
    (xs ++ ys).takeWhile p = xs ∧ (xs ++ ys).dropWhile p = ys := by
  induction xs with
  | nil =>
    cases ys with
    | nil => exact ⟨rfl, rfl⟩
    | cons c t =>
      have := hys c t rfl
      simp [List.takeWhile_cons, List.dropWhile_cons, this]
  | cons a xs ih =>
    have ha := hxs a (List.mem_cons_self a xs)
    have hr := ih (fun c hc => hxs c (List.mem_cons_of_mem a hc))
    simp [List.takeWhile_cons, List.dropWhile_cons, ha, hr.1, hr.2]

/-! ## Round-trip lemmas: hexadecimal escapes -/

theorem fromHexDigit_hexDigitChar (d : Nat) (h : d < 16) :
    fromHexDigit (hexDigitChar d) = some d := by
  interval_cases d <;> rfl

theorem hex4_uEsc_digits (n : Nat) (h : n < 65536) :
    hex4 (hexDigitChar (n / 4096 % 16)) (hexDigitChar (n / 256 % 16))
      (hexDigitChar (n / 16 % 16)) (hexDigitChar (n % 16)) = some n := by
  simp only [hex4, fromHexDigit_hexDigitChar (n / 4096 % 16) (by omega),
    fromHexDigit_hexDigitChar (n / 256 % 16) (by omega),
    fromHexDigit_hexDigitChar (n / 16 % 16) (by omega),
    fromHexDigit_hexDigitChar (n % 16) (by omega)]
  congr 1
  omega

theorem char_valid_ranges (c : Char) :
    c.toNat < 55296 ∨ (57343 < c.toNat ∧ c.toNat < 1114112) := by
  have h := c.valid
  unfold UInt32.isValidChar at h
  unfold Nat.isValidChar at h
  rcases h with h | ⟨h1, h2⟩
  · exact .inl h
  · exact .inr ⟨h1, h2⟩

theorem parseStringBody_unicode_step (fuel : Nat) (a b cc d : Char) (rest3 : List Char) :
    parseStringBody (fuel + 1) ('\\' :: 'u' :: a :: b :: cc :: d :: rest3) =
      (match hex4 a b cc d with
      | none => none
      | some n =>
        if n < 55296 || 57344 ≤ n then
          (parseStringBody fuel rest3).map (fun p => (Char.ofNat n :: p.1, p.2))
        else if n < 56320 then
          match rest3 with
          | s1 :: s2 :: e1 :: f1 :: g1 :: h1 :: rest4 =>
            if s1 = '\\' && s2 = 'u' then
              match hex4 e1 f1 g1 h1 with
              | none => none
              | some m =>
                if 56320 ≤ m && m < 57344 then
                  (parseStringBody fuel rest4).map (fun p =>
                    (Char.ofNat (65536 + (n - 55296) * 1024 + (m - 56320)) :: p.1, p.2))
                else none
            else none
          | _ => none
        else none) := rfl

theorem parseStringBody_plain (fuel : Nat) (c : Char) (l : List Char)
    (h1 : ¬ c = '"') (h2 : ¬ c = '\\') (h3 : ¬ c.toNat < 32) :
    parseStringBody (fuel + 1) (c :: l) =
      (parseStringBody fuel l).map (fun p => (c :: p.1, p.2)) := by
  simp only [parseStringBody]
  rw [if_neg h1, if_neg h2, if_neg h3]

theorem parseStringBody_escChar (ea : Bool) (c : Char) (fuel : Nat) (l : List Char) :
    parseStringBody (fuel + 1) (escChar ea c ++ l) =
      (parseStringBody fuel l).map (fun p => (c :: p.1, p.2)) := by
  by_cases h1 : c = '"'
  · subst h1
    rw [show escChar ea '"' = ['\\', '"'] from rfl]
    rfl
  by_cases h2 : c = '\\'
  · subst h2
    rw [show escChar ea '\\' = ['\\', '\\'] from rfl]
    rfl
  by_cases h3 : c.toNat = 8
  · have he : escChar ea c = ['\\', 'b'] := by simp [escChar, h1, h2, h3]
    have hc : Char.ofNat 8 = c := by rw [← h3, Char.ofNat_toNat]
    rw [he]
    show (parseStringBody fuel l).map (fun p => (Char.ofNat 8 :: p.1, p.2)) = _
    rw [hc]
  by_cases h4 : c.toNat = 9
  · have he : escChar ea c = ['\\', 't'] := by simp [escChar, h1, h2, h3, h4]
    have hc : '\t' = c := by
      rw [show '\t' = Char.ofNat 9 from by decide, ← h4, Char.ofNat_toNat]
    rw [he]
    show (parseStringBody fuel l).map (fun p => ('\t' :: p.1, p.2)) = _
    rw [hc]
  by_cases h5 : c.toNat = 10
  · have he : escChar ea c = ['\\', 'n'] := by simp [escChar, h1, h2, h3, h4, h5]
    have hc : '\n' = c := by
      rw [show '\n' = Char.ofNat 10 from by decide, ← h5, Char.ofNat_toNat]
    rw [he]
    show (parseStringBody fuel l).map (fun p => ('\n' :: p.1, p.2)) = _
    rw [hc]
  by_cases h6 : c.toNat = 12
  · have he : escChar ea c = ['\\', 'f'] := by simp [escChar, h1, h2, h3, h4, h5, h6]
    have hc : Char.ofNat 12 = c := by rw [← h6, Char.ofNat_toNat]
    rw [he]
    show (parseStringBody fuel l).map (fun p => (Char.ofNat 12 :: p.1, p.2)) = _
    rw [hc]
  by_cases h7 : c.toNat = 13
  · have he : escChar ea c = ['\\', 'r'] := by simp [escChar, h1, h2, h3, h4, h5, h6, h7]
    have hc : Char.ofNat 13 = c := by rw [← h7, Char.ofNat_toNat]
    rw [he]
    show (parseStringBody fuel l).map (fun p => (Char.ofNat 13 :: p.1, p.2)) = _
    rw [hc]
  by_cases h8 : c.toNat < 32
  · have he : escChar ea c = uEsc c.toNat := by
      simp [escChar, h1, h2, h3, h4, h5, h6, h7, h8]
    have hhex := hex4_uEsc_digits c.toNat (by omega)
    have hcond : (decide (c.toNat < 55296) || decide (57344 ≤ c.toNat)) = true := by
      simp only [Bool.or_eq_true, decide_eq_true_eq]
      exact Or.inl (by omega)
    rw [he, uEsc]
    simp only [List.cons_append, List.nil_append]
    rw [parseStringBody_unicode_step, hhex]
    show (if (decide (c.toNat < 55296) || decide (57344 ≤ c.toNat)) = true then _ else _) = _
    rw [if_pos hcond]
    rw [Char.ofNat_toNat]
  cases hb : (ea && decide (126 < c.toNat)) with
  | false =>
    have he : escChar ea c = [c] := by
      simp only [escChar, if_neg h1, if_neg h2, if_neg h3, if_neg h4, if_neg h5, if_neg h6,
        if_neg h7, if_neg h8, hb, Bool.false_eq_true, if_false]
    rw [he]
    exact parseStringBody_plain fuel c l h1 h2 h8
  | true =>
    by_cases h10 : c.toNat < 65536
    · have he : escChar ea c = uEsc c.toNat := by
        simp only [escChar, if_neg h1, if_neg h2, if_neg h3, if_neg h4, if_neg h5, if_neg h6,
          if_neg h7, if_neg h8, hb, if_true, if_pos h10]
      have hhex := hex4_uEsc_digits c.toNat h10
      have hcond : (decide (c.toNat < 55296) || decide (57344 ≤ c.toNat)) = true := by
        simp only [Bool.or_eq_true, decide_eq_true_eq]
        rcases char_valid_ranges c with hv | hv
        · exact Or.inl (by omega)
        · exact Or.inr (by omega)
      rw [he, uEsc]
      simp only [List.cons_append, List.nil_append]
      rw [parseStringBody_unicode_step, hhex]
      show (if (decide (c.toNat < 55296) || decide (57344 ≤ c.toNat)) = true then _ else _) = _
      rw [if_pos hcond]
      rw [Char.ofNat_toNat]
    · have hge : 65536 ≤ c.toNat := by omega
      have hrange : c.toNat < 1114112 := by
        rcases char_valid_ranges c with hv | hv <;> omega
      have he : escChar ea c
          = uEsc (55296 + (c.toNat - 65536) / 1024) ++ uEsc (56320 + (c.toNat - 65536) % 1024) := by
        simp only [escChar, if_neg h1, if_neg h2, if_neg h3, if_neg h4, if_neg h5, if_neg h6,
          if_neg h7, if_neg h8, hb, if_true, if_neg h10]
      have hhex1 := hex4_uEsc_digits (55296 + (c.toNat - 65536) / 1024) (by omega)
      have hhex2 := hex4_uEsc_digits (56320 + (c.toNat - 65536) % 1024) (by omega)
      have hcond1 : (decide (55296 + (c.toNat - 65536) / 1024 < 55296)
          || decide (57344 ≤ 55296 + (c.toNat - 65536) / 1024)) = false := by
        simp only [Bool.or_eq_false_iff, decide_eq_false_iff_not]
        omega
      have hcond2 : 55296 + (c.toNat - 65536) / 1024 < 56320 := by omega
      have hcond3 : (decide (56320 ≤ 56320 + (c.toNat - 65536) % 1024)
          && decide (56320 + (c.toNat - 65536) % 1024 < 57344)) = true := by
        simp only [Bool.and_eq_true, decide_eq_true_eq]
        omega
      have hchar : Char.ofNat (65536 + (55296 + (c.toNat - 65536) / 1024 - 55296) * 1024
          + (56320 + (c.toNat - 65536) % 1024 - 56320)) = c := by
        have harith : 65536 + (55296 + (c.toNat - 65536) / 1024 - 55296) * 1024
            + (56320 + (c.toNat - 65536) % 1024 - 56320) = c.toNat := by omega
        rw [harith, Char.ofNat_toNat]
      rw [he, List.append_assoc, uEsc, uEsc]
      simp only [List.cons_append, List.nil_append]
      rw [parseStringBody_unicode_step, hhex1]
      show (if (decide (55296 + (c.toNat - 65536) / 1024 < 55296)
          || decide (57344 ≤ 55296 + (c.toNat - 65536) / 1024)) = true then _ else _) = _
      rw [hcond1]
      rw [if_neg (by simp : ¬ false = true), if_pos hcond2]
      show (if (decide ('\\' = '\\') && decide ('u' = 'u')) = true then _ else _) = _
      rw [if_pos (by decide : (decide ('\\' = '\\') && decide ('u' = 'u')) = true)]
      rw [show hex4 (hexDigitChar ((56320 + (c.toNat - 65536) % 1024) / 4096 % 16))
          (hexDigitChar ((56320 + (c.toNat - 65536) % 1024) / 256 % 16))
          (hexDigitChar ((56320 + (c.toNat - 65536) % 1024) / 16 % 16))
          (hexDigitChar ((56320 + (c.toNat - 65536) % 1024) % 16))
          = some (56320 + (c.toNat - 65536) % 1024) from hhex2]
      show (if (decide (56320 ≤ 56320 + (c.toNat - 65536) % 1024)
          && decide (56320 + (c.toNat - 65536) % 1024 < 57344)) = true then _ else _) = _
      rw [hcond3]
      rw [if_pos (rfl : (true : Bool) = true)]
      rw [hchar]

theorem parseStringBody_escList (ea : Bool) (cs l : List Char) :
    ∀ fuel, cs.length < fuel →
      parseStringBody fuel (escList ea cs ++ ('"' :: l)) = some (cs, l) := by
  induction cs with
  | nil =>
    intro fuel hf
    obtain ⟨f, rfl⟩ : ∃ f, fuel = f + 1 := ⟨fuel - 1, by omega⟩
    rfl
  | cons c cs ih =>
    intro fuel hf
    obtain ⟨f, rfl⟩ : ∃ f, fuel = f + 1 := ⟨fuel - 1, by omega⟩
    rw [escList, List.append_assoc, parseStringBody_escChar,
      ih f (by simp only [List.length_cons] at hf; omega)]
    rfl


/-! ## Round-trip lemmas: numbers -/

theorem natDigitsAux_foldr (fuel : Nat) : ∀ n : Nat, n ≤ fuel →
    (natDigitsAux fuel n).foldr (fun d a => d + 10 * a) 0 = n := by
  induction fuel with
  | zero =>
    intro n h
    interval_cases n
    rfl
  | succ f ih =>
    intro n h
    rw [natDigitsAux]
    by_cases h0 : n = 0
    · rw [if_pos h0]
      simp [h0]
    · rw [if_neg h0, List.foldr_cons, ih (n / 10) (by omega)]
      omega

theorem natDigitsAux_lt_ten (fuel : Nat) : ∀ n d, d ∈ natDigitsAux fuel n → d < 10 := by
  induction fuel with
  | zero =>
    intro n d h
    simp [natDigitsAux] at h
  | succ f ih =>
    intro n d h
    rw [natDigitsAux] at h
    by_cases h0 : n = 0
    · rw [if_pos h0] at h
      simp at h
    · rw [if_neg h0] at h
      rcases List.mem_cons.mp h with rfl | h
      · omega
      · exact ih _ _ h

theorem natDigitsAux_zero (f : Nat) : natDigitsAux f 0 = [] := by
  cases f <;> rfl

theorem natDigitsAux_reverse_head (fuel : Nat) : ∀ n, 1 ≤ n → n ≤ fuel →
    ∃ d ds, (natDigitsAux fuel n).reverse = d :: ds ∧ d ≠ 0 := by
  induction fuel with
  | zero =>
    intro n h1 h2
    omega
  | succ f ih =>
    intro n h1 h2
    rw [natDigitsAux, if_neg (by omega : ¬ n = 0)]
    by_cases h10 : n < 10
    · have hz : n / 10 = 0 := by omega
      rw [hz, natDigitsAux_zero]
      exact ⟨n % 10, [], by simp, by omega⟩
    · obtain ⟨d, ds, hds, hd⟩ := ih (n / 10) (by omega) (by omega)
      rw [List.reverse_cons, hds]
      exact ⟨d, ds ++ [n % 10], by simp, hd⟩

theorem natOfBE_reverse_map (ds : List Nat) (h : ∀ d ∈ ds, d < 10) :
    natOfBE ((ds.reverse).map digitChar) = ds.foldr (fun d a => d + 10 * a) 0 := by
  induction ds with
  | nil => rfl
  | cons d ds ih =>
    have hd := h d (List.mem_cons_self d ds)
    have hdig : digitVal (digitChar d) = d := by interval_cases d <;> rfl
    have ih2 := ih (fun x hx => h x (List.mem_cons_of_mem d hx))
    simp only [List.reverse_cons, List.map_append, List.map_cons, List.map_nil, natOfBE,
      List.foldl_append, List.foldl_cons, List.foldl_nil, List.foldr_cons] at *
    rw [ih2, hdig]
    omega

theorem natOfBE_natRepr (n : Nat) : natOfBE (natRepr n) = n := by
  by_cases h0 : n = 0
  · subst h0
    rfl
  · rw [natRepr, if_neg h0,
      natOfBE_reverse_map _ (fun d hd => natDigitsAux_lt_ten n n d hd)]
    exact natDigitsAux_foldr n n (Nat.le_refl n)

theorem natRepr_all_digits (n : Nat) : ∀ c ∈ natRepr n, c.isDigit = true := by
  intro c hc
  rw [natRepr] at hc
  by_cases h0 : n = 0
  · rw [if_pos h0] at hc
    rw [List.mem_singleton.mp hc]
    rfl
  · rw [if_neg h0] at hc
    obtain ⟨d, hd, rfl⟩ := List.mem_map.mp hc
    have : d < 10 := natDigitsAux_lt_ten n n d (List.mem_reverse.mp hd)
    interval_cases d <;> rfl

theorem natRepr_pos_head (n : Nat) (h : 1 ≤ n) :
    ∃ c cs, natRepr n = c :: cs ∧ c.isDigit = true ∧ ¬ c = '0' := by
  obtain ⟨d, ds, hds, hd0⟩ := natDigitsAux_reverse_head n n h (Nat.le_refl n)
  have hlt : d < 10 := natDigitsAux_lt_ten n n d (by rw [← List.mem_reverse, hds]; simp)
  refine ⟨digitChar d, ds.map digitChar, ?_, ?_, ?_⟩
  · rw [natRepr, if_neg (by omega), hds, List.map_cons]
  · interval_cases d <;> rfl
  · interval_cases d
    · exact absurd rfl hd0
    all_goals decide

theorem numEnd_of_delimOk (l : List Char) (hl : delimOk l = true) : numEnd l = true := by
  cases l with
  | nil => rfl
  | cons c t => exact (delimOk_head c t hl).2.1

theorem parseNumberAux_natRepr (neg : Bool) (n : Nat) (l : List Char)
    (hl : delimOk l = true) :
    parseNumberAux neg (natRepr n ++ l) =
      some (.pint (if neg then -(n : Int) else (n : Int)), l) := by
  have hnum : numEnd l = true := numEnd_of_delimOk l hl
  by_cases h0 : n = 0
  · subst h0
    rw [show natRepr 0 = ['0'] from rfl]
    cases neg <;> simp [parseNumberAux, hnum]
  · obtain ⟨c, cs, hrep, hdig, hne0⟩ := natRepr_pos_head n (by omega)
    have hall : ∀ x ∈ c :: cs, x.isDigit = true := by
      rw [← hrep]
      exact fun x hx => natRepr_all_digits n x hx
    have hhead : ∀ x t, l = x :: t → x.isDigit = false :=
      fun x t hxt => (delimOk_head x t (hxt ▸ hl)).1
    have htw := takeWhile_dropWhile_append Char.isDigit (c :: cs) l hall hhead
    rw [hrep, List.cons_append]
    rw [parseNumberAux]
    rw [if_neg hne0, if_pos hdig]
    simp only [List.cons_append] at htw
    simp only [htw.1, htw.2]
    rw [if_pos hnum]
    rw [← hrep, natOfBE_natRepr]

theorem natRepr_ne_nil (n : Nat) : ∃ c cs, natRepr n = c :: cs ∧ c.isDigit = true := by
  by_cases h0 : n = 0
  · exact ⟨'0', [], by rw [h0]; rfl, rfl⟩
  · obtain ⟨c, cs, hrep, hdig, _⟩ := natRepr_pos_head n (by omega)
    exact ⟨c, cs, hrep, hdig⟩

theorem digit_ne_minus (c : Char) (h : c.isDigit = true) : ¬ c = '-' := by
  intro hc
  rw [hc] at h
  exact absurd h (by decide)

theorem parseNumber_intRepr (n : Int) (l : List Char) (hl : delimOk l = true) :
    parseNumber (intRepr n ++ l) = some (.pint n, l) := by
  by_cases hneg : n < 0
  · rw [intRepr, if_pos hneg, List.cons_append]
    rw [parseNumber]
    rw [if_pos rfl]
    rw [parseNumberAux_natRepr true n.natAbs l hl]
    have : -(n.natAbs : Int) = n := by omega
    simp only [if_true, this]
  · rw [intRepr, if_neg hneg]
    obtain ⟨c, cs, hrep, hdig⟩ := natRepr_ne_nil n.toNat
    rw [hrep, List.cons_append]
    rw [parseNumber]
    rw [if_neg (digit_ne_minus c hdig)]
    rw [← List.cons_append, ← hrep]
    rw [parseNumberAux_natRepr false n.toNat l hl]
    have : (n.toNat : Int) = n := by omega
    simp only [this]
    rfl

/-! ## Round-trip lemmas: scalar values -/

theorem parseVal_quote_step (f : Nat) (rest : List Char) :
    parseVal (f + 1) ('"' :: rest) =
      (parseStringBody (rest.length + 1) rest).map
        (fun p => (PyVal.pstr (String.mk p.1), p.2)) := rfl

theorem parseVal_true_step (f : Nat) (rest : List Char) :
    parseVal (f + 1) ('t' :: 'r' :: 'u' :: 'e' :: rest) = some (.pbool true, rest) := rfl

theorem parseVal_false_step (f : Nat) (rest : List Char) :
    parseVal (f + 1) ('f' :: 'a' :: 'l' :: 's' :: 'e' :: rest) = some (.pbool false, rest) := rfl

theorem parseVal_null_step (f : Nat) (rest : List Char) :
    parseVal (f + 1) ('n' :: 'u' :: 'l' :: 'l' :: rest) = some (.pnone, rest) := rfl

theorem parseVal_other_step (f : Nat) (c : Char) (rest : List Char)
    (hws : isWs c = false) (h1 : ¬ c = '"') (h2 : ¬ c = '{') (h3 : ¬ c = '[')
    (h4 : ¬ c = 't') (h5 : ¬ c = 'f') (h6 : ¬ c = 'n') :
    parseVal (f + 1) (c :: rest) = parseNumber (c :: rest) := by
  simp [parseVal, skipWs, List.dropWhile_cons, hws, h1, h2, h3, h4, h5, h6]

set_option maxHeartbeats 1000000 in
theorem escChar_length_pos (ea : Bool) (c : Char) : 1 ≤ (escChar ea c).length := by
  unfold escChar
  split_ifs <;> simp [uEsc]

theorem escList_length_ge (ea : Bool) (cs : List Char) :
    cs.length ≤ (escList ea cs).length := by
  induction cs with
  | nil => simp [escList]
  | cons c cs ih =>
    rw [escList, List.length_append, List.length_cons]
    have := escChar_length_pos ea c
    omega

theorem isDigit_dispatch (c : Char) (h : c.isDigit = true) :
    isWs c = false ∧ ¬ c = '"' ∧ ¬ c = '{' ∧ ¬ c = '[' ∧ ¬ c = 't' ∧ ¬ c = 'f' ∧
      ¬ c = 'n' := by
  refine ⟨?_, ?_, ?_, ?_, ?_, ?_, ?_⟩
  · cases hw : isWs c with
    | false => rfl
    | true =>
      exfalso
      simp only [isWs, Bool.or_eq_true, decide_eq_true_eq] at hw
      rcases hw with ((rfl | rfl) | rfl) | rfl <;> exact absurd h (by decide)
  all_goals intro hc
  all_goals rw [hc] at h
  all_goals exact absurd h (by decide)

theorem intRepr_length_pos (n : Int) : 1 ≤ (intRepr n).length := by
  rw [intRepr]
  by_cases hneg : n < 0
  · rw [if_pos hneg]
    simp
  · rw [if_neg hneg]
    obtain ⟨c, cs, hrep, _⟩ := natRepr_ne_nil n.toNat
    rw [hrep]
    simp

theorem jdump_scalar_parse (ea : Bool) (ind : Option Nat) (lvl : Nat) (v : PyVal)
    (hv : isScalar v = true) :
    ∃ cs, jdumpV ea ind lvl v = .ok cs ∧ 1 ≤ cs.length ∧
      ∀ f rest, delimOk rest = true → parseVal (f + 1) (cs ++ rest) = some (v, rest) := by
  cases v with
  | pstr s =>
    refine ⟨dumpStr ea s, rfl, by simp [dumpStr], ?_⟩
    intro f rest hrest
    rw [dumpStr]
    simp only [List.cons_append, List.append_assoc, List.singleton_append,
      List.nil_append]
    rw [parseVal_quote_step]
    have hlen : s.data.length < (escList ea s.data ++ '"' :: rest).length + 1 := by
      rw [List.length_append, List.length_cons]
      have := escList_length_ge ea s.data
      omega
    rw [parseStringBody_escList ea s.data rest _ hlen]
    show some (PyVal.pstr (String.mk s.data), rest) = some (.pstr s, rest)
    cases s
    rfl
  | pint n =>
    refine ⟨intRepr n, rfl, intRepr_length_pos n, ?_⟩
    intro f rest hrest
    have hp := parseNumber_intRepr n rest hrest
    by_cases hneg : n < 0
    · rw [intRepr, if_pos hneg, List.cons_append] at hp ⊢
      rw [parseVal_other_step f '-' _ (by decide) (by decide) (by decide) (by decide)
        (by decide) (by decide) (by decide)]
      exact hp
    · obtain ⟨c, cs2, hrep, hdig⟩ := natRepr_ne_nil n.toNat
      obtain ⟨hw, d1, d2, d3, d4, d5, d6⟩ := isDigit_dispatch c hdig
      rw [intRepr, if_neg hneg, hrep, List.cons_append] at hp ⊢
      rw [parseVal_other_step f c _ hw d1 d2 d3 d4 d5 d6]
      exact hp
  | pbool b =>
    cases b with
    | true =>
      refine ⟨['t', 'r', 'u', 'e'], rfl, by simp, ?_⟩
      intro f rest hrest
      simp only [List.cons_append, List.nil_append]
      exact parseVal_true_step f rest
    | false =>
      refine ⟨['f', 'a', 'l', 's', 'e'], rfl, by simp, ?_⟩
      intro f rest hrest
      simp only [List.cons_append, List.nil_append]
      exact parseVal_false_step f rest
  | pnone =>
    refine ⟨['n', 'u', 'l', 'l'], rfl, by simp, ?_⟩
    intro f rest hrest
    simp only [List.cons_append, List.nil_append]
    exact parseVal_null_step f rest
  | plist xs => simp [isScalar] at hv
  | pdict kvs => simp [isScalar] at hv

/-! ## Round-trip lemmas: composite structures -/

theorem expectColon_of (l r : List Char) (h : skipWs l = ':' :: r) :
    expectColon l = some r := by
  unfold expectColon
  rw [h]
  rfl

theorem objTail_more (l r : List Char) (h : skipWs l = ',' :: r) :
    objTail l = some (true, r) := by
  unfold objTail
  rw [h]
  rfl

theorem objTail_close (l r : List Char) (h : skipWs l = '}' :: r) :
    objTail l = some (false, r) := by
  unfold objTail
  rw [h]
  rfl

theorem arrTail_more (l r : List Char) (h : skipWs l = ',' :: r) :
    arrTail l = some (true, r) := by
  unfold arrTail
  rw [h]
  rfl

theorem arrTail_close (l r : List Char) (h : skipWs l = ']' :: r) :
    arrTail l = some (false, r) := by
  unfold arrTail
  rw [h]
  rfl

theorem parseVal_congr_skipWs (f : Nat) (a b : List Char) (h : skipWs a = skipWs b) :
    parseVal (f + 1) a = parseVal (f + 1) b := by
  simp only [parseVal]
  rw [h]

theorem parseObjItems_congr_skipWs (f : Nat) (a b : List Char) (h : skipWs a = skipWs b) :
    parseObjItems (f + 1) a = parseObjItems (f + 1) b := by
  simp only [parseObjItems]
  rw [h]

theorem parseVal_ws_lead (f : Nat) (ws l : List Char) (h : ∀ c ∈ ws, isWs c = true) :
    parseVal (f + 1) (ws ++ l) = parseVal (f + 1) l :=
  parseVal_congr_skipWs f _ _ (skipWs_append_of_ws ws l h)

theorem parseVal_space (f : Nat) (l : List Char) :
    parseVal (f + 1) (' ' :: l) = parseVal (f + 1) l :=
  parseVal_congr_skipWs f _ _ (by simp [skipWs, List.dropWhile_cons, isWs])

theorem delimOk_sepWs (ind : Option Nat) (lvl : Nat) (l : List Char) :
    delimOk (sepWs ind lvl ++ l) = true := by
  obtain ⟨ws, hws, _⟩ := sepWs_shape ind lvl
  rw [hws]
  rfl

theorem delimOk_openWs_close (ind : Option Nat) (lvl : Nat) (b : Char) (l : List Char)
    (hb : b = '}' ∨ b = ']') :
    delimOk (openWs ind lvl ++ b :: l) = true := by
  cases ind with
  | none => rcases hb with rfl | rfl <;> rfl
  | some i => rfl

theorem skipWs_openWs_cons (ind : Option Nat) (lvl : Nat) (b : Char) (l : List Char)
    (hb : isWs b = false) :
    skipWs (openWs ind lvl ++ b :: l) = b :: l := by
  rw [skipWs_append_of_ws _ _ (openWs_all_ws ind lvl), skipWs_cons_not_ws b l hb]

theorem jdumpV_list_cons_ok (ea : Bool) (ind : Option Nat) (lvl : Nat) (x : PyVal)
    (xs : List PyVal) (s0 rest : List Char)
    (h1 : jdumpV ea ind (lvl + 1) x = .ok s0)
    (h2 : jdumpItems ea ind (lvl + 1) xs = .ok rest) :
    jdumpV ea ind lvl (.plist (x :: xs)) =
      .ok ('[' :: openWs ind (lvl + 1) ++ s0 ++ rest ++ openWs ind lvl ++ [']']) := by
  simp only [jdumpV, h1, h2]
  rfl

theorem jdumpV_dict_cons_ok (ea : Bool) (ind : Option Nat) (lvl : Nat) (k : String)
    (v : PyVal) (kvs : List (PyVal × PyVal)) (v0 rest : List Char)
    (h1 : jdumpV ea ind (lvl + 1) v = .ok v0)
    (h2 : jdumpPairs ea ind (lvl + 1) kvs = .ok rest) :
    jdumpV ea ind lvl (.pdict ((PyVal.pstr k, v) :: kvs)) =
      .ok ('{' :: openWs ind (lvl + 1) ++ dumpStr ea k ++ ':' :: ' ' :: v0 ++ rest
        ++ openWs ind lvl ++ ['}']) := by
  simp only [jdumpV, keyChars, h1, h2]
  rfl

theorem jdumpItems_cons_ok (ea : Bool) (ind : Option Nat) (lvl : Nat) (x : PyVal)
    (xs : List PyVal) (s rest : List Char)
    (h1 : jdumpV ea ind lvl x = .ok s)
    (h2 : jdumpItems ea ind lvl xs = .ok rest) :
    jdumpItems ea ind lvl (x :: xs) = .ok (sepWs ind lvl ++ s ++ rest) := by
  simp only [jdumpItems, h1, h2]
  rfl

theorem jdumpPairs_cons_ok (ea : Bool) (ind : Option Nat) (lvl : Nat) (k : String)
    (v : PyVal) (kvs : List (PyVal × PyVal)) (v0 rest : List Char)
    (h1 : jdumpV ea ind lvl v = .ok v0)
    (h2 : jdumpPairs ea ind lvl kvs = .ok rest) :
    jdumpPairs ea ind lvl ((PyVal.pstr k, v) :: kvs) =
      .ok (sepWs ind lvl ++ dumpStr ea k ++ ':' :: ' ' :: v0 ++ rest) := by
  simp only [jdumpPairs, keyChars, h1, h2]
  rfl

theorem parseObjItems_quote_step (f : Nat) (rest : List Char) :
    parseObjItems (f + 1) ('"' :: rest) =
      (parseStringBody (rest.length + 1) rest).bind (fun kr =>
        (expectColon kr.2).bind (fun r2 =>
          (parseVal f r2).bind (fun vr =>
            (objTail vr.2).bind (fun br =>
              if br.1 then
                (parseObjItems f br.2).map
                  (fun p => ((String.mk kr.1, vr.1) :: p.1, p.2))
              else some ([(String.mk kr.1, vr.1)], br.2))))) := rfl

theorem delimOk_comma (t : List Char) : delimOk (',' :: t) = true := rfl

theorem key_fuel_bound (ea : Bool) (k : String) (X : List Char) :
    k.data.length < (escList ea k.data ++ '"' :: X).length + 1 := by
  rw [List.length_append]
  have := escList_length_ge ea k.data
  simp only [List.length_cons]
  omega

theorem objItems_roundtrip (ea : Bool) (ind : Option Nat) (lvl clvl : Nat)
    (kvs : List (String × PyVal)) :
    ∀ (k : String) (v : PyVal),
      (∀ kv ∈ (k, v) :: kvs, isScalar kv.2 = true) →
      ∃ vcs chunk,
        jdumpV ea ind lvl v = .ok vcs ∧
        jdumpPairs ea ind lvl (kvs.map (fun kv => (PyVal.pstr kv.1, kv.2))) = .ok chunk ∧
        1 ≤ vcs.length ∧ 2 * kvs.length ≤ chunk.length ∧
        ∀ f, kvs.length + 1 < f → ∀ pre, (∀ c ∈ pre, isWs c = true) →
          ∀ rest, delimOk rest = true →
          parseObjItems f
            (pre ++ (dumpStr ea k
              ++ ':' :: ' ' :: (vcs ++ (chunk ++ (openWs ind clvl ++ '}' :: rest)))))
            = some ((k, v) :: kvs, rest) := by
  induction kvs with
  | nil =>
    intro k v hsc
    obtain ⟨vcs, hv, hvlen, hp⟩ := jdump_scalar_parse ea ind lvl v (hsc (k, v) (by simp))
    refine ⟨vcs, [], hv, rfl, hvlen, by simp, ?_⟩
    intro f hf pre hpre rest hrest
    obtain ⟨f1, rfl⟩ : ∃ f1, f = f1 + 1 := ⟨f - 1, by omega⟩
    obtain ⟨g, rfl⟩ : ∃ g, f1 = g + 1 := ⟨f1 - 1, by omega⟩
    rw [parseObjItems_congr_skipWs (g + 1) _ _ (skipWs_append_of_ws pre _ hpre)]
    rw [dumpStr]
    simp only [List.cons_append, List.append_assoc, List.singleton_append, List.nil_append]
    rw [parseObjItems_quote_step]
    rw [parseStringBody_escList ea k.data _ _ (key_fuel_bound ea k _)]
    simp only [Option.some_bind]
    rw [expectColon_of _ _ (skipWs_cons_not_ws ':' _ (by decide))]
    simp only [Option.some_bind]
    rw [parseVal_space]
    rw [hp g _ (delimOk_openWs_close ind clvl '}' rest (.inl rfl))]
    simp only [Option.some_bind]
    rw [objTail_close _ _ (skipWs_openWs_cons ind clvl '}' rest (by decide))]
    simp only [Option.some_bind, Bool.false_eq_true, if_false]
  | cons p kvt ih =>
    obtain ⟨k1, v1⟩ := p
    intro k v hsc
    obtain ⟨vcs1, chunk1, hv1, hchunk1, hvlen1, hclen1, hparse1⟩ :=
      ih k1 v1 (fun kv hkv => hsc kv (List.mem_cons_of_mem _ hkv))
    obtain ⟨vcs, hv, hvlen, hp⟩ := jdump_scalar_parse ea ind lvl v (hsc (k, v) (by simp))
    obtain ⟨ws, hsep, hwsall⟩ := sepWs_shape ind lvl
    refine ⟨vcs, sepWs ind lvl ++ dumpStr ea k1 ++ ':' :: ' ' :: vcs1 ++ chunk1,
      hv, ?_, hvlen, ?_, ?_⟩
    · simp only [List.map_cons]
      exact jdumpPairs_cons_ok ea ind lvl k1 v1 _ vcs1 chunk1 hv1 hchunk1
    · have hsl : 1 ≤ (sepWs ind lvl).length := by
        rw [hsep]
        simp
      simp only [List.length_append, List.length_cons, List.length_map, dumpStr]
      omega
    intro f hf pre hpre rest hrest
    obtain ⟨f1, rfl⟩ : ∃ f1, f = f1 + 1 := ⟨f - 1, by omega⟩
    obtain ⟨g, rfl⟩ : ∃ g, f1 = g + 1 := ⟨f1 - 1, by omega⟩
    have hpar := hparse1 (g + 1) (by simp only [List.length_cons] at hf; omega) ws hwsall
      rest hrest
    simp only [dumpStr, List.cons_append, List.append_assoc, List.singleton_append,
      List.nil_append] at hpar
    rw [parseObjItems_congr_skipWs (g + 1) _ _ (skipWs_append_of_ws pre _ hpre)]
    rw [hsep]
    simp only [dumpStr, List.cons_append, List.append_assoc, List.singleton_append,
      List.nil_append]
    rw [parseObjItems_quote_step]
    rw [parseStringBody_escList ea k.data _ _ (key_fuel_bound ea k _)]
    simp only [Option.some_bind]
    rw [expectColon_of _ _ (skipWs_cons_not_ws ':' _ (by decide))]
    simp only [Option.some_bind]
    rw [parseVal_space]
    rw [hp g _ (delimOk_comma _)]
    simp only [Option.some_bind]
    rw [objTail_more _ _ (skipWs_cons_not_ws ',' _ (by decide))]
    simp only [Option.some_bind]
    rw [hpar]
    rfl

theorem dictInsert_fresh (d : List (String × PyVal)) (k : String) (v : PyVal)
    (h : ∀ kv ∈ d, kv.1 ≠ k) : dictInsert d k v = d ++ [(k, v)] := by
  unfold dictInsert
  rw [if_neg ?hne]
  case hne =>
    intro hany
    rw [List.any_eq_true] at hany
    obtain ⟨kv, hkv, hbeq⟩ := hany
    exact h kv hkv (by simpa using hbeq)

theorem dictOfPairs_foldl (ps : List (String × PyVal)) : ∀ d : List (String × PyVal),
    ((d ++ ps).map Prod.fst).Nodup →
    ps.foldl (fun d kv => dictInsert d kv.1 kv.2) d = d ++ ps := by
  induction ps with
  | nil =>
    intro d _
    simp
  | cons p ps ih =>
    obtain ⟨k, v⟩ := p
    intro d h
    have hsplit : ((d ++ (k, v) :: ps).map Prod.fst) = d.map Prod.fst ++ k :: ps.map Prod.fst := by
      simp
    rw [hsplit] at h
    have hfresh : ∀ kv ∈ d, kv.1 ≠ k := by
      intro kv hkv hk
      have hd := (List.nodup_append.mp h).2.2
      exact hd (List.mem_map.mpr ⟨kv, hkv, rfl⟩) (by simp [hk])
    rw [List.foldl_cons, dictInsert_fresh d k v hfresh]
    rw [ih (d ++ [(k, v)]) (by simpa using h)]
    simp

theorem dictOfPairs_nodup (ps : List (String × PyVal)) (h : (ps.map Prod.fst).Nodup) :
    dictOfPairs ps = ps := by
  have := dictOfPairs_foldl ps [] (by simpa using h)
  simpa [dictOfPairs] using this

theorem parseVal_lbrace_step (f : Nat) (rest : List Char) :
    parseVal (f + 1) ('{' :: rest) =
      (match skipWs rest with
      | '}' :: r => some (.pdict [], r)
      | l2 => (parseObjItems f l2).map (fun p =>
          (.pdict ((dictOfPairs p.1).map (fun kv => (PyVal.pstr kv.1, kv.2))), p.2))) := rfl

theorem parseVal_lbrace_empty (f : Nat) (rest : List Char) :
    parseVal (f + 1) ('{' :: '}' :: rest) = some (.pdict [], rest) := rfl

theorem parseVal_lbrace_items (f : Nat) (rest tail : List Char)
    (h : skipWs rest = '"' :: tail) :
    parseVal (f + 1) ('{' :: rest) =
      (parseObjItems f ('"' :: tail)).map (fun p =>
        (.pdict ((dictOfPairs p.1).map (fun kv => (PyVal.pstr kv.1, kv.2))), p.2)) := by
  rw [parseVal_lbrace_step, h]
  rfl

theorem jdump_record_parse (ea : Bool) (ind : Option Nat) (lvl : Nat)
    (kvs : List (String × PyVal))
    (hsc : ∀ kv ∈ kvs, isScalar kv.2 = true)
    (hnd : (kvs.map Prod.fst).Nodup) :
    ∃ cs, jdumpV ea ind lvl (recVal kvs) = .ok cs ∧
      (∃ t, cs = '{' :: t) ∧
      2 + 2 * kvs.length ≤ cs.length ∧
      ∀ f rest, delimOk rest = true → kvs.length < f →
        parseVal (f + 1) (cs ++ rest) = some (recVal kvs, rest) := by
  cases kvs with
  | nil =>
    refine ⟨['{', '}'], rfl, ⟨['}'], rfl⟩, by simp, ?_⟩
    intro f rest hrest hf
    simp only [List.cons_append, List.nil_append]
    exact parseVal_lbrace_empty f rest
  | cons p kvt =>
    obtain ⟨k0, v0⟩ := p
    obtain ⟨vcs, chunk, hv, hchunk, hvlen, hclen, hparse⟩ :=
      objItems_roundtrip ea ind (lvl + 1) lvl kvt k0 v0 hsc
    refine ⟨'{' :: openWs ind (lvl + 1) ++ dumpStr ea k0 ++ ':' :: ' ' :: vcs ++ chunk
      ++ openWs ind lvl ++ ['}'], ?_, ⟨_, rfl⟩, ?_, ?_⟩
    · show jdumpV ea ind lvl (.pdict ((PyVal.pstr k0, v0) :: kvt.map
        (fun kv => (PyVal.pstr kv.1, kv.2)))) = _
      exact jdumpV_dict_cons_ok ea ind lvl k0 v0 _ vcs chunk hv hchunk
    · simp only [dumpStr, List.length_append, List.length_cons, List.length_map]
      omega
    intro f rest hrest hf
    obtain ⟨g, rfl⟩ : ∃ g, f = g + 1 := ⟨f - 1, by omega⟩
    have hpar := hparse (g + 1) (by simp only [List.length_cons] at hf; omega)
      [] (by simp) rest hrest
    simp only [dumpStr, List.cons_append, List.append_assoc, List.singleton_append,
      List.nil_append] at hpar ⊢
    rw [parseVal_lbrace_items (g + 1) _ _
      (skipWs_openWs_cons ind (lvl + 1) '"' _ (by decide))]
    rw [hpar]
    simp only [Option.map_some']
    rw [dictOfPairs_nodup _ hnd]
    rfl

theorem fuelNeed_scalar (v : PyVal) (hv : isScalar v = true) : fuelNeed v = 1 := by
  cases v <;> first | rfl | simp [isScalar] at hv

theorem fuelNeedP_scalars (r : List (String × PyVal))
    (h : ∀ kv ∈ r, isScalar kv.2 = true) :
    fuelNeedP (r.map (fun kv => (PyVal.pstr kv.1, kv.2))) = 2 * r.length := by
  induction r with
  | nil => rfl
  | cons kv r ih =>
    obtain ⟨k, v⟩ := kv
    rw [List.map_cons]
    show 1 + fuelNeed v + fuelNeedP (r.map _) = _
    rw [fuelNeed_scalar v (h (k, v) (by simp)), ih (fun kv hkv => h kv (by simp [hkv]))]
    simp only [List.length_cons]
    omega

theorem fuelNeed_recVal (r : List (String × PyVal))
    (h : ∀ kv ∈ r, isScalar kv.2 = true) :
    fuelNeed (recVal r) = 1 + 2 * r.length := by
  show 1 + fuelNeedP (r.map _) = _
  rw [fuelNeedP_scalars r h]

theorem parseArrItems_step (f : Nat) (l : List Char) :
    parseArrItems (f + 1) l =
      (parseVal f l).bind (fun vr =>
        (arrTail vr.2).bind (fun br =>
          if br.1 then (parseArrItems f br.2).map (fun p => (vr.1 :: p.1, p.2))
          else some ([vr.1], br.2))) := rfl

theorem arrItems_roundtrip (ea : Bool) (ind : Option Nat) (lvl clvl : Nat)
    (records : List (List (String × PyVal))) :
    ∀ r0 : List (String × PyVal),
      (∀ r ∈ r0 :: records, (∀ kv ∈ r, isScalar kv.2 = true) ∧ (r.map Prod.fst).Nodup) →
      ∃ cs0 chunk,
        jdumpV ea ind lvl (recVal r0) = .ok cs0 ∧
        jdumpItems ea ind lvl (records.map recVal) = .ok chunk ∧
        (∃ t, cs0 = '{' :: t) ∧
        2 + 2 * r0.length ≤ cs0.length ∧
        fuelNeedL (records.map recVal) ≤ chunk.length ∧
        ∀ f, fuelNeedL ((r0 :: records).map recVal) < f →
          ∀ pre, (∀ c ∈ pre, isWs c = true) →
          ∀ rest, delimOk rest = true →
          parseArrItems f (pre ++ (cs0 ++ (chunk ++ (openWs ind clvl ++ ']' :: rest))))
            = some (recVal r0 :: records.map recVal, rest) := by
  induction records with
  | nil =>
    intro r0 hr
    obtain ⟨cs0, hdump, hhead, hlen, hp⟩ :=
      jdump_record_parse ea ind lvl r0 (hr r0 (by simp)).1 (hr r0 (by simp)).2
    refine ⟨cs0, [], hdump, rfl, hhead, hlen, by simp [fuelNeedL], ?_⟩
    intro f hf pre hpre rest hrest
    have hfn := fuelNeed_recVal r0 (hr r0 (by simp)).1
    simp only [List.map_cons, List.map_nil, fuelNeedL, hfn] at hf
    obtain ⟨f1, rfl⟩ : ∃ f1, f = f1 + 1 := ⟨f - 1, by omega⟩
    obtain ⟨g, rfl⟩ : ∃ g, f1 = g + 1 := ⟨f1 - 1, by omega⟩
    rw [parseArrItems_step]
    simp only [List.nil_append]
    rw [parseVal_ws_lead g pre _ hpre]
    rw [hp g _ (delimOk_openWs_close ind clvl ']' rest (.inr rfl)) (by omega)]
    simp only [Option.some_bind]
    rw [arrTail_close _ _ (skipWs_openWs_cons ind clvl ']' rest (by decide))]
    simp only [Option.some_bind, Bool.false_eq_true, if_false]
    rfl
  | cons r1 rs ih =>
    intro r0 hr
    obtain ⟨cs1, chunk1, hdump1, hchunk1, hhead1, hlen1, hclen1, hparse1⟩ :=
      ih r1 (fun r hrr => hr r (List.mem_cons_of_mem _ hrr))
    obtain ⟨cs0, hdump, hhead, hlen, hp⟩ :=
      jdump_record_parse ea ind lvl r0 (hr r0 (by simp)).1 (hr r0 (by simp)).2
    obtain ⟨ws, hsep, hwsall⟩ := sepWs_shape ind lvl
    have hfn0 := fuelNeed_recVal r0 (hr r0 (by simp)).1
    have hfn1 := fuelNeed_recVal r1 (hr r1 (by simp)).1
    refine ⟨cs0, sepWs ind lvl ++ cs1 ++ chunk1, hdump, ?_, hhead, hlen, ?_, ?_⟩
    · rw [List.map_cons]
      exact jdumpItems_cons_ok ea ind lvl (recVal r1) (rs.map recVal) cs1 chunk1
        hdump1 hchunk1
    · have hsl : 1 ≤ (sepWs ind lvl).length := by
        rw [hsep]
        simp
      simp only [List.map_cons, fuelNeedL, hfn1, List.length_append]
      omega
    intro f hf pre hpre rest hrest
    simp only [List.map_cons, fuelNeedL, hfn0, hfn1] at hf
    obtain ⟨f1, rfl⟩ : ∃ f1, f = f1 + 1 := ⟨f - 1, by omega⟩
    obtain ⟨g, rfl⟩ : ∃ g, f1 = g + 1 := ⟨f1 - 1, by omega⟩
    have hpar := hparse1 (g + 1) (by simp only [List.map_cons, fuelNeedL, hfn1]; omega)
      ws hwsall rest hrest
    rw [parseArrItems_step]
    rw [hsep]
    simp only [List.cons_append, List.append_assoc, List.nil_append]
    rw [parseVal_ws_lead g pre _ hpre]
    rw [hp g _ (delimOk_comma _) (by omega)]
    simp only [Option.some_bind]
    rw [arrTail_more _ _ (skipWs_cons_not_ws ',' _ (by decide))]
    simp only [Option.some_bind]
    simp only [List.append_assoc] at hpar
    rw [hpar]
    rfl

theorem parseVal_lbrack_step (f : Nat) (rest : List Char) :
    parseVal (f + 1) ('[' :: rest) =
      (match skipWs rest with
      | ']' :: r => some (.plist [], r)
      | l2 => (parseArrItems f l2).map (fun p => (.plist p.1, p.2))) := rfl

theorem parseVal_lbrack_empty (f : Nat) (rest : List Char) :
    parseVal (f + 1) ('[' :: ']' :: rest) = some (.plist [], rest) := rfl

theorem parseVal_lbrack_items (f : Nat) (rest tail : List Char)
    (h : skipWs rest = '{' :: tail) :
    parseVal (f + 1) ('[' :: rest) =
      (parseArrItems f ('{' :: tail)).map (fun p => (.plist p.1, p.2)) := by
  rw [parseVal_lbrack_step, h]
  rfl

theorem jdump_recordlist_parse (ea : Bool) (ind : Option Nat) (lvl : Nat)
    (records : List (List (String × PyVal)))
    (hr : ∀ r ∈ records, (∀ kv ∈ r, isScalar kv.2 = true) ∧ (r.map Prod.fst).Nodup) :
    ∃ cs, jdumpV ea ind lvl (.plist (records.map recVal)) = .ok cs ∧
      fuelNeedL (records.map recVal) + 2 ≤ cs.length ∧
      ∀ f rest, delimOk rest = true → fuelNeedL (records.map recVal) < f →
        parseVal (f + 1) (cs ++ rest) = some (.plist (records.map recVal), rest) := by
  cases records with
  | nil =>
    refine ⟨['[', ']'], rfl, by simp [fuelNeedL], ?_⟩
    intro f rest hrest hf
    simp only [List.map_nil, List.cons_append, List.nil_append]
    exact parseVal_lbrack_empty f rest
  | cons r0 rs =>
    obtain ⟨cs0, chunk, hdump0, hchunk, ⟨t, rfl⟩, hlen0, hclen, hparse⟩ :=
      arrItems_roundtrip ea ind (lvl + 1) lvl rs r0 hr
    have hfn0 := fuelNeed_recVal r0 (hr r0 (by simp)).1
    refine ⟨'[' :: openWs ind (lvl + 1) ++ ('{' :: t) ++ chunk ++ openWs ind lvl ++ [']'],
      ?_, ?_, ?_⟩
    · rw [List.map_cons]
      exact jdumpV_list_cons_ok ea ind lvl (recVal r0) (rs.map recVal) _ chunk hdump0 hchunk
    · simp only [List.length_cons] at hlen0
      simp only [List.map_cons, fuelNeedL, hfn0, List.length_append, List.length_cons]
      omega
    intro f rest hrest hf
    simp only [List.map_cons, fuelNeedL, hfn0] at hf
    obtain ⟨g, rfl⟩ : ∃ g, f = g + 1 := ⟨f - 1, by omega⟩
    have hpar := hparse (g + 1)
      (by simp only [List.map_cons, fuelNeedL, hfn0]; omega)
      [] (by simp) rest hrest
    simp only [List.cons_append, List.append_assoc, List.singleton_append,
      List.nil_append] at hpar ⊢
    rw [parseVal_lbrack_items (g + 1) _ _
      (skipWs_openWs_cons ind (lvl + 1) '{' _ (by decide))]
    rw [hpar]
    rfl

theorem loads_recordlist (ea : Bool) (ind : Option Nat)
    (records : List (List (String × PyVal)))
    (hr : ∀ r ∈ records, (∀ kv ∈ r, isScalar kv.2 = true) ∧ (r.map Prod.fst).Nodup) :
    ∀ cs, jdumpV ea ind 0 (.plist (records.map recVal)) = .ok cs →
      loads (String.mk cs) = .ok (.plist (records.map recVal)) := by
  obtain ⟨cs', hdump, hlen, hparse⟩ := jdump_recordlist_parse ea ind 0 records hr
  intro cs hcs
  rw [hdump] at hcs
  injection hcs with hcs
  subst hcs
  have hp := hparse cs'.length [] rfl (by omega)
  rw [List.append_nil] at hp
  have hl : parseVal ((String.mk cs').data.length + 1) (String.mk cs').data
      = some (.plist (records.map recVal), []) := hp
  unfold loads
  rw [hl]
  rfl

/-- C2: for every record set of flat records with JSON-safe scalar values
and nodup keys and every writable path, writing with `write_json` and then
reading the same path with `read_json` yields a string that `loads` parses
back to a value deep-equal to the original records. -/
theorem write_read_roundtrip (fs : FS) (path : String)
    (records : List (List (String × PyVal)))
    (hw : fs.writeErr path = none)
    (hr : ∀ r ∈ records, (∀ kv ∈ r, isScalar kv.2 = true) ∧ (r.map Prod.fst).Nodup) :
    loads (read_json (write_json (records.map recVal) path fs).1 path) =
      .ok (.plist (records.map recVal)) := by
  obtain ⟨csw, hdw, -, -⟩ := jdump_recordlist_parse false (some 2) 0 records hr
  obtain ⟨csc, hdc, -, -⟩ := jdump_recordlist_parse true none 0 records hr
  obtain ⟨csr, hdr, -, -⟩ := jdump_recordlist_parse true (some 2) 0 records hr
  have hload_w := loads_recordlist false (some 2) records hr csw hdw
  have hload_r := loads_recordlist true (some 2) records hr csr hdr
  simp only [write_json, hw, hdw, hdc]
  have hfile : (fs.setFile path (String.mk csw)).files path = .content (String.mk csw) := by
    simp [FS.setFile]
  simp only [read_json, hfile, hload_w, hdr]
  exact hload_r

theorem write_read_roundtrip_witness :
    (emptyFS.writeErr ("users.json") = none) ∧
    (∀ r ∈ demoRecords, (∀ kv ∈ r, isScalar kv.2 = true) ∧ (r.map Prod.fst).Nodup) ∧
    loads (read_json (write_json (demoRecords.map recVal) ("users.json") emptyFS).1
      ("users.json")) = .ok (.plist (demoRecords.map recVal)) :=
  ⟨rfl, by decide, write_read_roundtrip emptyFS ("users.json") demoRecords rfl (by decide)⟩
